import Mathlib

/-
Verification of the PopMap tile-allocation core.

Shallow embedding of `src/lib/PopMapGenerator.ts` and of the render-grid
construction in the PopMap Svelte component (`renderMap`).  Modelling
conventions, each noted again at the definition it concerns:

* JavaScript numbers that hold integer values (grid coordinates, packed
  coordinates, tile counts, indices) are modelled as `Int` / `Nat`; all
  values arising stay far below 2^53, where JS arithmetic on integers is
  exact.
* The code stores `Math.sqrt((x-cx)^2 + (y-cy)^2)` and only ever *compares*
  these values.  Square roots of natural numbers below 2^51 are strictly
  ordered exactly as their radicands (IEEE sqrt is correctly rounded and
  strictly monotone in that range), so we model the stored distance by the
  integer squared distance and compare those.
* `Array.prototype.sort` with comparator `(a, b) => a.numTiles - b.numTiles`
  is, by the ECMAScript specification, a stable sort ascending in
  `numTiles`; it is modelled by `List.insertionSort`, which is stable for
  the reflexive total preorder used here.
* `Set` objects are modelled by lists with insertion-order append-if-absent
  (`addUnique`), matching JS `Set` insertion/iteration semantics.
-/

namespace PopMap

/-- Grid-cell address, `Coordinate` in the source. -/
structure Coordinate where
  x : Int
  y : Int
deriving DecidableEq, Repr

/-- The fields of `GridCity` that the placement algorithm reads
(`name`, `centerX`, `centerY`, `numTiles`); the carried-over `City`
fields (`state`, `lat`, `lng`, `population`) are never consulted after
conversion.  `numTiles` is a `Nat`: quotas are `round`-images of
non-negative population shares. -/
structure GridCity where
  name : String
  centerX : Int
  centerY : Int
  numTiles : Nat
deriving DecidableEq, Repr

/-- Per-city result record, `CityTiles` in the source. -/
structure CityTiles where
  index : Nat
  cityName : String
  tiles : List Coordinate
  color : String
deriving DecidableEq, Repr

/-- Candidate record `CandidateTile`; `distanceToCenter` holds the squared
Euclidean distance (see the header note on `Math.sqrt`). -/
structure CandidateTile where
  x : Int
  y : Int
  distanceToCenter : Int
deriving DecidableEq, Repr

/-- `COLOR_PALETTE` from the source. -/
def COLOR_PALETTE : List String :=
  ["#ff6b6b", "#4ecdc4", "#45b7d1", "#96ceb4", "#feca57",
   "#ff9ff3", "#54a0ff", "#48dbfb", "#a29bfe", "#c8d6e5"]

/-- `getColor(index)`: `COLOR_PALETTE[index % COLOR_PALETTE.length]`. -/
def getColor (index : Nat) : String :=
  COLOR_PALETTE.getD (index % COLOR_PALETTE.length) ""

/-- `isValidCell(x, y)`: `x >= 0 && x < gridWidth && y >= 0 && y < gridHeight`. -/
def isValidCell (W H : Nat) (x y : Int) : Prop :=
  0 ≤ x ∧ x < (W : Int) ∧ 0 ≤ y ∧ y < (H : Int)

instance (W H : Nat) (x y : Int) : Decidable (isValidCell W H x y) := by
  unfold isValidCell; infer_instance

/-- `packCoordinate(x, y)`: `y * gridWidth + x`. -/
def packCoordinate (W : Nat) (x y : Int) : Int :=
  y * (W : Int) + x

/-- `unpackCoordinate(packed)`: `{ x: packed % gridWidth, y: floor(packed / gridWidth) }`.
The function is only ever applied to packings of valid cells, which are
non-negative; on non-negative arguments JS `%` agrees with `Int.emod` and
`Math.floor` of the quotient with `Int.ediv`, the operators written `%`
and `/` here. -/
def unpackCoordinate (W : Nat) (packed : Int) : Coordinate :=
  ⟨packed % (W : Int), packed / (W : Int)⟩

/-- JS `Math.abs` on integers. -/
def jsAbs (n : Int) : Int :=
  if n < 0 then -n else n

/-- The integer range `a, a+1, …, b` (empty when `b < a`), used to model
`for` loops running between two bounds. -/
def intRange (a b : Int) : List Int :=
  (List.range (b + 1 - a).toNat).map (fun (i : Nat) => a + (i : Int))

/-- One ring of the square spiral: the offsets `(dx, dy)` with
`-radius <= dx, dy <= radius` and `|dx| == radius || |dy| == radius`,
enumerated with `dx` as the outer loop and `dy` as the inner loop —
exactly the loop nest shared by `findNearestOpenCell` and the fallback
search of `findBestNextCell`. -/
def ringOffsets (radius : Nat) : List (Int × Int) :=
  (intRange (-(radius : Int)) radius).flatMap (fun dx =>
    ((intRange (-(radius : Int)) radius).filter
      (fun dy => jsAbs dx = (radius : Int) ∨ jsAbs dy = (radius : Int))).map
      (fun dy => (dx, dy)))

/-- `findNearestOpenCell(targetX, targetY)`: the target cell itself if
valid and unclaimed, else the first valid unclaimed cell of the ring scan
with `radius = 1, 2, …` while `radius < max(gridWidth, gridHeight)`. -/
def findNearestOpenCell (W H : Nat) (taken : List Int) (targetX targetY : Int) :
    Option Coordinate :=
  if isValidCell W H targetX targetY ∧ packCoordinate W targetX targetY ∉ taken then
    some ⟨targetX, targetY⟩
  else
    (List.range' 1 (max W H - 1)).findSome? (fun radius =>
      (ringOffsets radius).findSome? (fun d =>
        if isValidCell W H (targetX + d.1) (targetY + d.2) ∧
            packCoordinate W (targetX + d.1) (targetY + d.2) ∉ taken then
          some ⟨targetX + d.1, targetY + d.2⟩
        else none))

/-- JS `Set.prototype.add`: append if absent, keeping insertion order. -/
def addUnique (l : List Int) (p : Int) : List Int :=
  if p ∈ l then l else l ++ [p]

/-- The 8 neighbor offsets scanned by `findBestNextCell`:
`dx, dy ∈ {-1, 0, 1}` skipping `(0, 0)`, `dx` outer. -/
def neighborOffsets : List (Int × Int) :=
  (intRange (-1) 1).flatMap (fun dx =>
    ((intRange (-1) 1).filter (fun dy => ¬(dx = 0 ∧ dy = 0))).map (fun dy => (dx, dy)))

/-- The `adjacentCells` set of `findBestNextCell`: packed coordinates of
every valid unclaimed cell 8-adjacent to some existing tile, in JS `Set`
insertion order (tiles in list order, offsets in loop order, first
insertion wins). -/
def adjacentCells (W H : Nat) (taken : List Int) (existingTiles : List Coordinate) :
    List Int :=
  existingTiles.foldl (fun acc tile =>
    neighborOffsets.foldl (fun acc2 d =>
      if isValidCell W H (tile.x + d.1) (tile.y + d.2) ∧
          packCoordinate W (tile.x + d.1) (tile.y + d.2) ∉ taken then
        addUnique acc2 (packCoordinate W (tile.x + d.1) (tile.y + d.2))
      else acc2) acc) []

/-- Squared Euclidean distance to the center; the source stores
`Math.sqrt` of this value and only compares, see the header note. -/
def distanceToCenter (cx cy x y : Int) : Int :=
  (x - cx) ^ 2 + (y - cy) ^ 2

/-- `MAX_FALLBACK_CANDIDATES`. -/
def MAX_FALLBACK_CANDIDATES : Nat := 50

/-- The candidate list collected by the fallback spiral search of
`findBestNextCell`: rings of radius `0, 1, …` while
`radius < max(gridWidth, gridHeight)` around
`(floor(centerX), floor(centerY))` (centers are integer-valued here, so
`Math.floor` is the identity), keeping valid unclaimed cells.  The
`found` counter with its three `break`s stops collection exactly when 50
candidates have been gathered, i.e. the loop nest collects the first 50
free cells of the radius-ordered scan: `take 50` of the filtered scan. -/
def fallbackCandidates (W H : Nat) (taken : List Int) (cx cy : Int) :
    List CandidateTile :=
  (((List.range (max W H)).flatMap (fun radius => ringOffsets radius)).filterMap
    (fun d =>
      if isValidCell W H (cx + d.1) (cy + d.2) ∧
          packCoordinate W (cx + d.1) (cy + d.2) ∉ taken then
        some ⟨cx + d.1, cy + d.2, distanceToCenter cx cy (cx + d.1) (cy + d.2)⟩
      else none)).take MAX_FALLBACK_CANDIDATES

/-- The final selection scan of `findBestNextCell`: start from
`candidates[0]` and replace only on a strictly smaller distance, so the
first candidate attaining the minimum wins. -/
def bestCandidate : List CandidateTile → Option CandidateTile
  | [] => none
  | c :: rest =>
    some (rest.foldl (fun best cand =>
      if cand.distanceToCenter < best.distanceToCenter then cand else best) c)

/-- The `candidates` list accumulated by `findBestNextCell`: the adjacent
cells (unpacked, with their distance) when the frontier is non-empty,
otherwise the fallback spiral collection. -/
def candidatesFor (W H : Nat) (taken : List Int) (cx cy : Int)
    (existingTiles : List Coordinate) : List CandidateTile :=
  if (adjacentCells W H taken existingTiles).isEmpty then
    fallbackCandidates W H taken cx cy
  else
    (adjacentCells W H taken existingTiles).map (fun packedCoord =>
      ⟨(unpackCoordinate W packedCoord).x, (unpackCoordinate W packedCoord).y,
        distanceToCenter cx cy (unpackCoordinate W packedCoord).x
          (unpackCoordinate W packedCoord).y⟩)

/-- `findBestNextCell(centerX, centerY, existingTiles)`. -/
def findBestNextCell (W H : Nat) (taken : List Int) (cx cy : Int)
    (existingTiles : List Coordinate) : Option Coordinate :=
  match bestCandidate (candidatesFor W H taken cx cy existingTiles) with
  | some best => some ⟨best.x, best.y⟩
  | none => none

/-- The growth loop of `placeTiles` (`for i = 1; i < city.numTiles; i++`),
as a recursion on the remaining iteration count: claim the chosen cell and
append it, or stop at the first `null`. -/
def growCity (W H : Nat) (cx cy : Int) :
    Nat → List Coordinate → List Int → List Coordinate × List Int
  | 0, tiles, taken => (tiles, taken)
  | n + 1, tiles, taken =>
    match findBestNextCell W H taken cx cy tiles with
    | some c =>
      growCity W H cx cy n (tiles ++ [c]) (addUnique taken (packCoordinate W c.x c.y))
    | none => (tiles, taken)

/-- The body of `placeTiles` for one city: find the start cell, claim it,
then run the growth loop `numTiles - 1` times; with no start cell the tile
list stays empty. -/
def placeCity (W H : Nat) (city : GridCity) (taken : List Int) :
    List Coordinate × List Int :=
  match findNearestOpenCell W H taken city.centerX city.centerY with
  | some s =>
    growCity W H city.centerX city.centerY (city.numTiles - 1) [s]
      (addUnique taken (packCoordinate W s.x s.y))
  | none => ([], taken)

/-- `placeTiles`, over the (already sorted) city list, threading the
`takenCells` set and the running `cityIndex`. -/
def placeTilesAux (W H : Nat) :
    List GridCity → Nat → List Int → List CityTiles × List Int
  | [], _, taken => ([], taken)
  | city :: rest, cityIndex, taken =>
    let pr := placeCity W H city taken
    let out := placeTilesAux W H rest (cityIndex + 1) pr.2
    (⟨cityIndex, city.name, pr.1, getColor cityIndex⟩ :: out.1, out.2)

/-- The constructor's sort: `cities.sort((a, b) => a.numTiles - b.numTiles)`,
a stable ascending sort by `numTiles` (ECMAScript `Array.prototype.sort`
is specified stable); `insertionSort` with `≤` on the key is that sort. -/
def sortCities (cities : List GridCity) : List GridCity :=
  List.insertionSort (fun a b => a.numTiles ≤ b.numTiles) cities

/-- `new PopMapGenerator(cities, w, h).generate()` restricted to the
placement core: sort, then place, starting from an empty occupancy set. -/
def generate (cities : List GridCity) (W H : Nat) : List CityTiles :=
  (placeTilesAux W H (sortCities cities) 0 []).1

/-! Quota computation (`convertCitiesToGridCoordinates`), for the rounding
claim.  Populations are modelled as exact rationals: the only rounding
step of interest is the final `Math.round`, and for the population sizes
at hand (far below 2^42) the double-precision evaluation of
`NUM_TILES * (population / totalPopulation)` never crosses a half-integer
boundary relative to the exact value, `NUM_TILES` being a power of two. -/

/-- The input `City` record (coordinate fields omitted; only `population`
feeds the quota). -/
structure City where
  name : String
  population : ℚ
deriving DecidableEq, Repr

/-- `NUM_TILES = 1024`, the total tile budget. -/
def NUM_TILES : ℚ := 1024

/-- The constructor's population total: `for (city of cities) total += population`. -/
def totalPopulationOf (cities : List City) : ℚ :=
  cities.foldl (fun s c => s + c.population) 0

/-- JS `Math.round`: round half toward positive infinity, `⌊q + 1/2⌋`. -/
def mathRound (q : ℚ) : ℤ :=
  ⌊q + 1 / 2⌋

/-- The `numTiles` field computed by `convertCitiesToGridCoordinates`:
`Math.round(NUM_TILES * (population / totalPopulation))`. -/
def cityNumTiles (totalPopulation : ℚ) (city : City) : ℤ :=
  mathRound (NUM_TILES * (city.population / totalPopulation))

/-- Round half away from zero — the rounding mode named by the spec. -/
def roundHalfAwayFromZero (q : ℚ) : ℤ :=
  if 0 ≤ q then ⌊q + 1 / 2⌋ else -⌊-q + 1 / 2⌋

/-! ### Basic lemmas about the scan combinators -/

theorem jsAbs_le {n m : Int} : jsAbs n ≤ m ↔ -m ≤ n ∧ n ≤ m := by
  unfold jsAbs; split <;> omega

theorem jsAbs_eq_iff {n m : Int} (hm : 0 ≤ m) : jsAbs n = m ↔ n = m ∨ n = -m := by
  unfold jsAbs; split <;> omega

theorem mem_intRange {a b n : Int} : n ∈ intRange a b ↔ a ≤ n ∧ n ≤ b := by
  unfold intRange
  constructor
  · intro h
    obtain ⟨i, hi, rfl⟩ := List.mem_map.1 h
    have := List.mem_range.1 hi
    omega
  · rintro ⟨h1, h2⟩
    exact List.mem_map.2 ⟨(n - a).toNat, List.mem_range.2 (by omega), by omega⟩

theorem mem_ringOffsets {r : Nat} {d : Int × Int} :
    d ∈ ringOffsets r ↔
      jsAbs d.1 ≤ (r : Int) ∧ jsAbs d.2 ≤ (r : Int) ∧
      (jsAbs d.1 = (r : Int) ∨ jsAbs d.2 = (r : Int)) := by
  obtain ⟨dx, dy⟩ := d
  unfold ringOffsets
  simp only [List.mem_flatMap, List.mem_map, List.mem_filter, mem_intRange,
    decide_eq_true_eq, Prod.mk.injEq]
  constructor
  · rintro ⟨a, ⟨ha1, ha2⟩, b, ⟨⟨hb1, hb2⟩, hcond⟩, rfl, rfl⟩
    exact ⟨jsAbs_le.2 ⟨ha1, ha2⟩, jsAbs_le.2 ⟨hb1, hb2⟩, hcond⟩
  · rintro ⟨h1, h2, h3⟩
    obtain ⟨ha1, ha2⟩ := jsAbs_le.1 h1
    obtain ⟨hb1, hb2⟩ := jsAbs_le.1 h2
    exact ⟨dx, ⟨ha1, ha2⟩, dy, ⟨⟨hb1, hb2⟩, h3⟩, rfl, rfl⟩

theorem mem_neighborOffsets {d : Int × Int} :
    d ∈ neighborOffsets ↔
      jsAbs d.1 ≤ 1 ∧ jsAbs d.2 ≤ 1 ∧ ¬(d.1 = 0 ∧ d.2 = 0) := by
  obtain ⟨dx, dy⟩ := d
  unfold neighborOffsets
  simp only [List.mem_flatMap, List.mem_map, List.mem_filter, mem_intRange,
    decide_eq_true_eq, Prod.mk.injEq]
  constructor
  · rintro ⟨a, ⟨ha1, ha2⟩, b, ⟨⟨hb1, hb2⟩, hcond⟩, rfl, rfl⟩
    exact ⟨jsAbs_le.2 ⟨ha1, ha2⟩, jsAbs_le.2 ⟨hb1, hb2⟩, by simpa using hcond⟩
  · rintro ⟨h1, h2, h3⟩
    obtain ⟨ha1, ha2⟩ := jsAbs_le.1 h1
    obtain ⟨hb1, hb2⟩ := jsAbs_le.1 h2
    exact ⟨dx, ⟨ha1, ha2⟩, dy, ⟨⟨hb1, hb2⟩, by simpa using h3⟩, rfl, rfl⟩

theorem mem_addUnique {l : List Int} {p q : Int} :
    q ∈ addUnique l p ↔ q ∈ l ∨ q = p := by
  unfold addUnique
  split
  · rename_i h
    constructor
    · exact Or.inl
    · rintro (hq | rfl)
      · exact hq
      · exact h
  · simp

theorem addUnique_of_not_mem {l : List Int} {p : Int} (h : p ∉ l) :
    addUnique l p = l ++ [p] := by
  unfold addUnique; simp [h]

/-! ### Packing -/

theorem isValidCell_pos {W H : Nat} {x y : Int} (h : isValidCell W H x y) :
    0 < W ∧ 0 < H := by
  obtain ⟨h1, h2, h3, h4⟩ := h
  omega

theorem unpackCoordinate_packCoordinate {W H : Nat} {x y : Int}
    (h : isValidCell W H x y) :
    unpackCoordinate W (packCoordinate W x y) = ⟨x, y⟩ := by
  obtain ⟨h1, h2, h3, h4⟩ := h
  have hW : (0 : Int) < (W : Int) := by omega
  unfold unpackCoordinate packCoordinate
  have hmod : (y * (W : Int) + x) % (W : Int) = x := by
    rw [add_comm, Int.add_mul_emod_self]
    exact Int.emod_eq_of_lt h1 h2
  have hdiv : (y * (W : Int) + x) / (W : Int) = y := by
    rw [add_comm, Int.add_mul_ediv_right _ _ (by omega : (W : Int) ≠ 0)]
    rw [Int.ediv_eq_zero_of_lt h1 h2]
    omega
  simp [hmod, hdiv]

theorem packCoordinate_injOn {W H : Nat} {x1 y1 x2 y2 : Int}
    (h1 : isValidCell W H x1 y1) (h2 : isValidCell W H x2 y2)
    (heq : packCoordinate W x1 y1 = packCoordinate W x2 y2) :
    x1 = x2 ∧ y1 = y2 := by
  have e1 := unpackCoordinate_packCoordinate h1
  have e2 := unpackCoordinate_packCoordinate h2
  rw [heq, e2] at e1
  exact ⟨(Coordinate.mk.injEq .. ▸ e1).1.symm, (Coordinate.mk.injEq .. ▸ e1).2.symm⟩

/-! ### The adjacency frontier -/

/-- A cell `c` is 8-directionally adjacent to a tile `t`: both offsets at
most 1 in magnitude and not the same cell. -/
def adjacent8 (t c : Coordinate) : Prop :=
  jsAbs (c.x - t.x) ≤ 1 ∧ jsAbs (c.y - t.y) ≤ 1 ∧ c ≠ t

/-- The spec's "adjacency frontier": a grid-valid, unclaimed cell that is
8-directionally adjacent to some cell already claimed by this location. -/
def isFrontierCell (W H : Nat) (taken : List Int) (tiles : List Coordinate)
    (c : Coordinate) : Prop :=
  isValidCell W H c.x c.y ∧ packCoordinate W c.x c.y ∉ taken ∧
    ∃ t ∈ tiles, adjacent8 t c

theorem mem_adjacentCells_inner (W H : Nat) (taken : List Int) (tile : Coordinate) :
    ∀ (l : List (Int × Int)) (acc : List Int) (q : Int),
      (q ∈ l.foldl (fun acc2 d =>
        if isValidCell W H (tile.x + d.1) (tile.y + d.2) ∧
            packCoordinate W (tile.x + d.1) (tile.y + d.2) ∉ taken then
          addUnique acc2 (packCoordinate W (tile.x + d.1) (tile.y + d.2))
        else acc2) acc) ↔
      q ∈ acc ∨ ∃ d ∈ l,
        (isValidCell W H (tile.x + d.1) (tile.y + d.2) ∧
          packCoordinate W (tile.x + d.1) (tile.y + d.2) ∉ taken) ∧
        packCoordinate W (tile.x + d.1) (tile.y + d.2) = q := by
  intro l
  induction l with
  | nil => simp
  | cons d rest ih =>
    intro acc q
    rw [List.foldl_cons, ih]
    by_cases hc : isValidCell W H (tile.x + d.1) (tile.y + d.2) ∧
        packCoordinate W (tile.x + d.1) (tile.y + d.2) ∉ taken
    · rw [if_pos hc]
      rw [mem_addUnique]
      constructor
      · rintro ((hq | rfl) | hrest)
        · exact Or.inl hq
        · exact Or.inr ⟨d, List.mem_cons_self .., ⟨hc, rfl⟩⟩
        · obtain ⟨d', hd', hP, hq⟩ := hrest
          exact Or.inr ⟨d', List.mem_cons_of_mem _ hd', hP, hq⟩
      · rintro (hq | ⟨d', hd', hP, hq⟩)
        · exact Or.inl (Or.inl hq)
        · rcases List.mem_cons.1 hd' with rfl | hd'
          · exact Or.inl (Or.inr hq.symm)
          · exact Or.inr ⟨d', hd', hP, hq⟩
    · rw [if_neg hc]
      constructor
      · rintro (hq | ⟨d', hd', hP, hq⟩)
        · exact Or.inl hq
        · exact Or.inr ⟨d', List.mem_cons_of_mem _ hd', hP, hq⟩
      · rintro (hq | ⟨d', hd', hP, hq⟩)
        · exact Or.inl hq
        · rcases List.mem_cons.1 hd' with rfl | hd'
          · exact absurd hP hc
          · exact Or.inr ⟨d', hd', hP, hq⟩

theorem mem_adjacentCells_aux (W H : Nat) (taken : List Int) :
    ∀ (tiles : List Coordinate) (acc : List Int) (q : Int),
      (q ∈ tiles.foldl (fun acc tile =>
        neighborOffsets.foldl (fun acc2 d =>
          if isValidCell W H (tile.x + d.1) (tile.y + d.2) ∧
              packCoordinate W (tile.x + d.1) (tile.y + d.2) ∉ taken then
            addUnique acc2 (packCoordinate W (tile.x + d.1) (tile.y + d.2))
          else acc2) acc) acc) ↔
      q ∈ acc ∨ ∃ t ∈ tiles, ∃ d ∈ neighborOffsets,
        (isValidCell W H (t.x + d.1) (t.y + d.2) ∧
          packCoordinate W (t.x + d.1) (t.y + d.2) ∉ taken) ∧
        packCoordinate W (t.x + d.1) (t.y + d.2) = q := by
  intro tiles
  induction tiles with
  | nil => simp
  | cons t rest ih =>
    intro acc q
    rw [List.foldl_cons, ih, mem_adjacentCells_inner]
    constructor
    · rintro ((hq | ⟨d, hd, hP, hq⟩) | ⟨t', ht', hrest⟩)
      · exact Or.inl hq
      · exact Or.inr ⟨t, List.mem_cons_self .., d, hd, hP, hq⟩
      · exact Or.inr ⟨t', List.mem_cons_of_mem _ ht', hrest⟩
    · rintro (hq | ⟨t', ht', hrest⟩)
      · exact Or.inl (Or.inl hq)
      · rcases List.mem_cons.1 ht' with rfl | ht'
        · exact Or.inl (Or.inr hrest)
        · exact Or.inr ⟨t', ht', hrest⟩

theorem mem_adjacentCells {W H : Nat} {taken : List Int}
    {tiles : List Coordinate} {q : Int} :
    q ∈ adjacentCells W H taken tiles ↔
      ∃ c : Coordinate, isFrontierCell W H taken tiles c ∧
        packCoordinate W c.x c.y = q := by
  unfold adjacentCells
  rw [mem_adjacentCells_aux]
  simp only [List.not_mem_nil, false_or]
  constructor
  · rintro ⟨t, ht, d, hd, ⟨hval, hfree⟩, hq⟩
    obtain ⟨h1, h2, h3⟩ := mem_neighborOffsets.1 hd
    refine ⟨⟨t.x + d.1, t.y + d.2⟩, ⟨hval, hfree, t, ht, ?_, ?_, ?_⟩, hq⟩
    · simpa using h1
    · simpa using h2
    · intro hEq
      obtain ⟨hx, hy⟩ := Coordinate.mk.injEq .. ▸ hEq
      exact h3 ⟨by omega, by omega⟩
  · rintro ⟨c, ⟨hval, hfree, t, ht, ha1, ha2, hne⟩, hq⟩
    have h1 : t.x + (c.x - t.x, c.y - t.y).1 = c.x := by simp only; omega
    have h2 : t.y + (c.x - t.x, c.y - t.y).2 = c.y := by simp only; omega
    refine ⟨t, ht, (c.x - t.x, c.y - t.y), mem_neighborOffsets.2 ⟨ha1, ha2, ?_⟩, ?_, ?_⟩
    · rintro ⟨hx, hy⟩
      simp only at hx hy
      refine hne ?_
      obtain ⟨cx, cy⟩ := c
      obtain ⟨tx, ty⟩ := t
      simp only at hx hy
      simp only [Coordinate.mk.injEq]
      omega
    · rw [h1, h2]
      exact ⟨hval, hfree⟩
    · rw [h1, h2]
      exact hq

/-! ### The candidate-selection scan -/

theorem foldl_best_spec (l : List CandidateTile) :
    ∀ (b : CandidateTile),
      (l.foldl (fun best cand =>
          if cand.distanceToCenter < best.distanceToCenter then cand else best) b = b ∨
        l.foldl (fun best cand =>
          if cand.distanceToCenter < best.distanceToCenter then cand else best) b ∈ l) ∧
      (l.foldl (fun best cand =>
          if cand.distanceToCenter < best.distanceToCenter then cand else best) b).distanceToCenter ≤ b.distanceToCenter ∧
      ∀ c ∈ l,
        (l.foldl (fun best cand =>
          if cand.distanceToCenter < best.distanceToCenter then cand else best) b).distanceToCenter ≤ c.distanceToCenter := by
  induction l with
  | nil => intro b; simp
  | cons c rest ih =>
    intro b
    rw [List.foldl_cons]
    obtain ⟨hmem, hle, hall⟩ := ih (if c.distanceToCenter < b.distanceToCenter then c else b)
    refine ⟨?_, ?_, ?_⟩
    · rcases hmem with h | h
      · rw [h]
        split
        · exact Or.inr (List.mem_cons_self ..)
        · exact Or.inl rfl
      · exact Or.inr (List.mem_cons_of_mem _ h)
    · refine le_trans hle ?_
      split <;> omega
    · intro c' hc'
      rcases List.mem_cons.1 hc' with rfl | hc'
      · refine le_trans hle ?_
        split <;> omega
      · exact hall c' hc'

theorem bestCandidate_spec {l : List CandidateTile} {c : CandidateTile}
    (h : bestCandidate l = some c) :
    c ∈ l ∧ ∀ c' ∈ l, c.distanceToCenter ≤ c'.distanceToCenter := by
  match l, h with
  | c0 :: rest, h =>
    obtain ⟨hmem, hle, hall⟩ := foldl_best_spec rest c0
    unfold bestCandidate at h
    have hc : rest.foldl (fun best cand =>
        if cand.distanceToCenter < best.distanceToCenter then cand else best) c0 = c := by
      exact Option.some.injEq .. ▸ h
    rw [hc] at hmem hle hall
    constructor
    · rcases hmem with rfl | hmem
      · exact List.mem_cons_self ..
      · exact List.mem_cons_of_mem _ hmem
    · intro c' hc'
      rcases List.mem_cons.1 hc' with rfl | hc'
      · exact hle
      · exact hall c' hc'

theorem bestCandidate_isSome {l : List CandidateTile} (h : l ≠ []) :
    ∃ c, bestCandidate l = some c := by
  match l, h with
  | c0 :: rest, _ => exact ⟨_, rfl⟩

theorem bestCandidate_eq_none {l : List CandidateTile} (h : l = []) :
    bestCandidate l = none := by
  subst h; rfl

/-! ### Extraction lemmas: chosen cells are valid and unclaimed -/

theorem findNearestOpenCell_some {W H : Nat} {taken : List Int} {tx ty : Int}
    {c : Coordinate} (h : findNearestOpenCell W H taken tx ty = some c) :
    isValidCell W H c.x c.y ∧ packCoordinate W c.x c.y ∉ taken := by
  unfold findNearestOpenCell at h
  split at h
  · rename_i hcond
    injection h with h'
    subst h'
    exact hcond
  · obtain ⟨r, hr, hsome⟩ := List.exists_of_findSome?_eq_some h
    obtain ⟨d, hd, hsome2⟩ := List.exists_of_findSome?_eq_some hsome
    split at hsome2
    · rename_i hcond
      injection hsome2 with h'
      subst h'
      exact hcond
    · cases hsome2

theorem mem_fallbackCandidates {W H : Nat} {taken : List Int} {cx cy : Int}
    {cand : CandidateTile} (h : cand ∈ fallbackCandidates W H taken cx cy) :
    isValidCell W H cand.x cand.y ∧ packCoordinate W cand.x cand.y ∉ taken ∧
      cand.distanceToCenter = distanceToCenter cx cy cand.x cand.y := by
  unfold fallbackCandidates at h
  have h2 := List.mem_of_mem_take h
  obtain ⟨d, hd, heq⟩ := List.mem_filterMap.1 h2
  split at heq
  · rename_i hcond
    injection heq with h'
    subst h'
    exact ⟨hcond.1, hcond.2, rfl⟩
  · cases heq

theorem mem_candidatesFor {W H : Nat} {taken : List Int} {cx cy : Int}
    {tiles : List Coordinate} {cand : CandidateTile}
    (h : cand ∈ candidatesFor W H taken cx cy tiles) :
    isValidCell W H cand.x cand.y ∧ packCoordinate W cand.x cand.y ∉ taken ∧
      cand.distanceToCenter = distanceToCenter cx cy cand.x cand.y := by
  unfold candidatesFor at h
  split at h
  · exact mem_fallbackCandidates h
  · obtain ⟨p, hp, heq⟩ := List.mem_map.1 h
    obtain ⟨c', ⟨hval, hfree, _⟩, hpack⟩ := mem_adjacentCells.1 hp
    subst hpack
    rw [unpackCoordinate_packCoordinate hval] at heq
    subst heq
    exact ⟨hval, hfree, rfl⟩

theorem findBestNextCell_some {W H : Nat} {taken : List Int} {cx cy : Int}
    {tiles : List Coordinate} {c : Coordinate}
    (h : findBestNextCell W H taken cx cy tiles = some c) :
    isValidCell W H c.x c.y ∧ packCoordinate W c.x c.y ∉ taken := by
  unfold findBestNextCell at h
  split at h
  · rename_i best hbest
    injection h with h'
    subst h'
    obtain ⟨hmem, _⟩ := bestCandidate_spec hbest
    obtain ⟨hval, hfree, _⟩ := mem_candidatesFor hmem
    exact ⟨hval, hfree⟩
  · cases h

/-! ### Spec-side description of start-cell selection -/

/-- The full start-cell scan sequence as the spec words it: for each radius
`1, 2, …` up to the bound `max(gridWidth, gridHeight)` (the loop runs while
`radius < max(gridWidth, gridHeight)`), the ring's cells in perimeter order. -/
def startScanCells (W H : Nat) (tx ty : Int) : List Coordinate :=
  ((List.range' 1 (max W H - 1)).flatMap (fun radius => ringOffsets radius)).map
    (fun d => ⟨tx + d.1, ty + d.2⟩)

/-- A cell is selectable: grid-valid and unclaimed. -/
def openCellB (W H : Nat) (taken : List Int) (c : Coordinate) : Bool :=
  decide (isValidCell W H c.x c.y ∧ packCoordinate W c.x c.y ∉ taken)

/-- Start-cell selection as the spec words it: the target itself if valid
and unclaimed, otherwise the first valid unclaimed cell of the fixed scan
sequence. -/
def specStartCell (W H : Nat) (taken : List Int) (tx ty : Int) : Option Coordinate :=
  if isValidCell W H tx ty ∧ packCoordinate W tx ty ∉ taken then
    some ⟨tx, ty⟩
  else
    (startScanCells W H tx ty).find? (openCellB W H taken)

theorem findSome?_flatMap_eq {α β γ : Type} (l : List α) (f : α → List β)
    (g : β → Option γ) :
    (l.flatMap f).findSome? g = l.findSome? (fun a => (f a).findSome? g) := by
  induction l with
  | nil => rfl
  | cons a rest ih =>
    rw [List.flatMap_cons, List.findSome?_append, List.findSome?_cons]
    cases hfa : (f a).findSome? g with
    | none => simp [hfa, ih]
    | some b => simp [hfa]

theorem findSome?_scan_eq_find? (W H : Nat) (taken : List Int) (tx ty : Int) :
    ∀ l : List (Int × Int),
      (l.findSome? (fun d =>
        if isValidCell W H (tx + d.1) (ty + d.2) ∧
            packCoordinate W (tx + d.1) (ty + d.2) ∉ taken then
          some ⟨tx + d.1, ty + d.2⟩
        else none)) =
      (l.map (fun d => (⟨tx + d.1, ty + d.2⟩ : Coordinate))).find?
        (openCellB W H taken) := by
  intro l
  induction l with
  | nil => rfl
  | cons d rest ih =>
    rw [List.map_cons, List.findSome?_cons, List.find?_cons]
    by_cases hp : isValidCell W H (tx + d.1) (ty + d.2) ∧
        packCoordinate W (tx + d.1) (ty + d.2) ∉ taken
    · simp only [if_pos hp]
      have : openCellB W H taken ⟨tx + d.1, ty + d.2⟩ = true := by
        unfold openCellB
        exact decide_eq_true hp
      rw [this]
    · simp only [if_neg hp]
      have : openCellB W H taken ⟨tx + d.1, ty + d.2⟩ = false := by
        unfold openCellB
        exact decide_eq_false hp
      rw [this, ih]

theorem findNearestOpenCell_eq_spec (W H : Nat) (taken : List Int) (tx ty : Int) :
    findNearestOpenCell W H taken tx ty = specStartCell W H taken tx ty := by
  unfold findNearestOpenCell specStartCell startScanCells
  by_cases hc : isValidCell W H tx ty ∧ packCoordinate W tx ty ∉ taken
  · rw [if_pos hc, if_pos hc]
  · rw [if_neg hc, if_neg hc]
    rw [← findSome?_flatMap_eq (f := fun radius => ringOffsets radius)
      (g := fun d =>
        if isValidCell W H (tx + d.1) (ty + d.2) ∧
            packCoordinate W (tx + d.1) (ty + d.2) ∉ taken then
          some (⟨tx + d.1, ty + d.2⟩ : Coordinate)
        else none)]
    rw [findSome?_scan_eq_find?]

/-! ### The placement loop -/

/-- All packed coordinates claimed across an output list, in claim order. -/
def allPacks (W : Nat) (out : List CityTiles) : List Int :=
  out.flatMap (fun ct => ct.tiles.map (fun c => packCoordinate W c.x c.y))

theorem growCity_spec (W H : Nat) (cx cy : Int) :
    ∀ (fuel : Nat) (tiles : List Coordinate) (taken : List Int),
      ∃ Δ : List Coordinate,
        growCity W H cx cy fuel tiles taken =
          (tiles ++ Δ, taken ++ Δ.map (fun c => packCoordinate W c.x c.y)) ∧
        (∀ c ∈ Δ, isValidCell W H c.x c.y) ∧
        (taken.Nodup → (taken ++ Δ.map (fun c => packCoordinate W c.x c.y)).Nodup) ∧
        Δ.length ≤ fuel ∧
        (Δ.length = fuel ∨
          findBestNextCell W H (taken ++ Δ.map (fun c => packCoordinate W c.x c.y))
            cx cy (tiles ++ Δ) = none) := by
  intro fuel
  induction fuel with
  | zero =>
    intro tiles taken
    refine ⟨[], by simp [growCity], by simp, by simp, by simp, Or.inl rfl⟩
  | succ n ih =>
    intro tiles taken
    cases h : findBestNextCell W H taken cx cy tiles with
    | none =>
      refine ⟨[], by simp [growCity, h], by simp, by simp, by simp, Or.inr (by simpa using h)⟩
    | some c =>
      obtain ⟨hval, hfree⟩ := findBestNextCell_some h
      have hadd : addUnique taken (packCoordinate W c.x c.y) =
          taken ++ [packCoordinate W c.x c.y] := addUnique_of_not_mem hfree
      obtain ⟨Δ, heq, hvalΔ, hnd, hlen, hdisj⟩ :=
        ih (tiles ++ [c]) (taken ++ [packCoordinate W c.x c.y])
      refine ⟨c :: Δ, ?_, ?_, ?_, ?_, ?_⟩
      · simp only [growCity, h, hadd, heq]
        simp only [List.append_assoc, List.singleton_append, List.map_cons]
      · intro c' hc'
        rcases List.mem_cons.1 hc' with rfl | hc'
        · exact hval
        · exact hvalΔ c' hc'
      · intro hnodup
        have h1 : (taken ++ [packCoordinate W c.x c.y]).Nodup := by
          rw [List.nodup_append]
          exact ⟨hnodup, List.nodup_singleton _, by
            intro a ha hb
            simp only [List.mem_singleton] at hb
            subst hb
            exact hfree ha⟩
        have := hnd h1
        rw [List.append_assoc] at this
        simpa using this
      · simp only [List.length_cons]
        omega
      · rcases hdisj with hfull | hstop
        · exact Or.inl (by simp only [List.length_cons]; omega)
        · refine Or.inr ?_
          simp only [List.append_assoc, List.singleton_append, List.map_cons] at hstop ⊢
          exact hstop

theorem placeCity_spec (W H : Nat) (city : GridCity) (taken : List Int) :
    ∃ tiles : List Coordinate,
      placeCity W H city taken =
        (tiles, taken ++ tiles.map (fun c => packCoordinate W c.x c.y)) ∧
      (∀ c ∈ tiles, isValidCell W H c.x c.y) ∧
      (taken.Nodup → (taken ++ tiles.map (fun c => packCoordinate W c.x c.y)).Nodup) ∧
      tiles.length ≤ max city.numTiles 1 ∧
      (tiles.length < city.numTiles →
        (tiles = [] ∧ findNearestOpenCell W H taken city.centerX city.centerY = none) ∨
        findBestNextCell W H (taken ++ tiles.map (fun c => packCoordinate W c.x c.y))
          city.centerX city.centerY tiles = none) := by
  cases hstart : findNearestOpenCell W H taken city.centerX city.centerY with
  | none =>
    refine ⟨[], by simp [placeCity, hstart], by simp, by simp, by simp, ?_⟩
    intro _
    exact Or.inl ⟨rfl, by simp [hstart]⟩
  | some s =>
    obtain ⟨hvs, hfs⟩ := findNearestOpenCell_some hstart
    have hadd : addUnique taken (packCoordinate W s.x s.y) =
        taken ++ [packCoordinate W s.x s.y] := addUnique_of_not_mem hfs
    obtain ⟨Δ, heq, hvalΔ, hnd, hlen, hdisj⟩ :=
      growCity_spec W H city.centerX city.centerY (city.numTiles - 1) [s]
        (taken ++ [packCoordinate W s.x s.y])
    refine ⟨s :: Δ, ?_, ?_, ?_, ?_, ?_⟩
    · simp only [placeCity, hstart, hadd, heq]
      simp only [List.append_assoc, List.singleton_append, List.map_cons]
    · intro c' hc'
      rcases List.mem_cons.1 hc' with rfl | hc'
      · exact hvs
      · exact hvalΔ c' hc'
    · intro hnodup
      have h1 : (taken ++ [packCoordinate W s.x s.y]).Nodup := by
        rw [List.nodup_append]
        exact ⟨hnodup, List.nodup_singleton _, by
          intro a ha hb
          simp only [List.mem_singleton] at hb
          subst hb
          exact hfs ha⟩
      have := hnd h1
      rw [List.append_assoc] at this
      simpa using this
    · simp only [List.length_cons]
      omega
    · intro hlt
      simp only [List.length_cons] at hlt
      rcases hdisj with hfull | hstop
      · omega
      · refine Or.inr ?_
        simp only [List.append_assoc, List.singleton_append, List.map_cons] at hstop ⊢
        exact hstop

theorem placeTilesAux_spec (W H : Nat) :
    ∀ (cs : List GridCity) (idx : Nat) (taken : List Int),
      (placeTilesAux W H cs idx taken).2 =
        taken ++ allPacks W (placeTilesAux W H cs idx taken).1 ∧
      (placeTilesAux W H cs idx taken).1.length = cs.length ∧
      (∀ ct ∈ (placeTilesAux W H cs idx taken).1, ∀ c ∈ ct.tiles,
        isValidCell W H c.x c.y) ∧
      (taken.Nodup →
        (taken ++ allPacks W (placeTilesAux W H cs idx taken).1).Nodup) ∧
      (∀ (i : Nat) (city : GridCity), cs[i]? = some city →
        ∃ t0, (placeTilesAux W H cs idx taken).1[i]? =
          some ⟨idx + i, city.name, (placeCity W H city t0).1, getColor (idx + i)⟩) := by
  intro cs
  induction cs with
  | nil =>
    intro idx taken
    refine ⟨by simp [placeTilesAux, allPacks], by simp [placeTilesAux],
      by simp [placeTilesAux], by simp [placeTilesAux, allPacks], ?_⟩
    intro i city hcity
    simp at hcity
  | cons city rest ih =>
    intro idx taken
    obtain ⟨tiles, heq, hvalT, hndT, _, _⟩ := placeCity_spec W H city taken
    have hfst : (placeCity W H city taken).1 = tiles := by rw [heq]
    have hsnd : (placeCity W H city taken).2 =
        taken ++ tiles.map (fun c => packCoordinate W c.x c.y) := by rw [heq]
    have hcons1 : (placeTilesAux W H (city :: rest) idx taken).1 =
        ⟨idx, city.name, (placeCity W H city taken).1, getColor idx⟩ ::
          (placeTilesAux W H rest (idx + 1) (placeCity W H city taken).2).1 := rfl
    have hcons2 : (placeTilesAux W H (city :: rest) idx taken).2 =
        (placeTilesAux W H rest (idx + 1) (placeCity W H city taken).2).2 := rfl
    obtain ⟨ih1, ih2, ih3, ih4, ih5⟩ := ih (idx + 1) (placeCity W H city taken).2
    refine ⟨?_, ?_, ?_, ?_, ?_⟩
    · rw [hcons2, ih1, hcons1]
      simp only [allPacks, List.flatMap_cons, hfst, hsnd]
      rw [List.append_assoc]
    · rw [hcons1, List.length_cons, ih2, List.length_cons]
    · intro ct hct c hc
      rw [hcons1] at hct
      rcases List.mem_cons.1 hct with rfl | hct
      · simp only [hfst] at hc
        exact hvalT c hc
      · exact ih3 ct hct c hc
    · intro hnodup
      rw [hcons1]
      simp only [allPacks, List.flatMap_cons, hfst]
      rw [← List.append_assoc]
      have h1 := ih4 (by rw [hsnd]; exact hndT hnodup)
      simp only [allPacks] at h1
      nth_rewrite 1 [hsnd] at h1
      exact h1
    · intro i c hc
      cases i with
      | zero =>
        simp only [List.getElem?_cons_zero] at hc
        injection hc with hc
        subst hc
        refine ⟨taken, ?_⟩
        rw [hcons1]
        simp
      | succ j =>
        simp only [List.getElem?_cons_succ] at hc
        obtain ⟨t0, ht0⟩ := ih5 j c hc
        refine ⟨t0, ?_⟩
        rw [hcons1]
        simp only [List.getElem?_cons_succ]
        rw [ht0]
        have hidx : idx + 1 + j = idx + (j + 1) := by omega
        rw [hidx]

theorem jsAbs_nonneg (n : Int) : 0 ≤ jsAbs n := by
  unfold jsAbs; split <;> omega

theorem one_le_jsAbs {n : Int} (h : n ≠ 0) : 1 ≤ jsAbs n := by
  unfold jsAbs; split <;> omega

/-! ### Claim theorems -/

/-- C7: for every location with non-negative population, the quota
computed by `convertCitiesToGridCoordinates`,
`Math.round(NUM_TILES * (population / totalPopulation))`, equals
round-half-away-from-zero of `1024 * population / totalPopulation`
(on the non-negative arguments arising here, halves round up), given
`totalPopulation > 0`. -/
theorem claim_C7_quota_rounding (cities : List City) (city : City)
    (hmem : city ∈ cities) (hpop : 0 ≤ city.population)
    (htot : 0 < totalPopulationOf cities) :
    cityNumTiles (totalPopulationOf cities) city =
      roundHalfAwayFromZero (1024 * city.population / totalPopulationOf cities) := by
  unfold cityNumTiles roundHalfAwayFromZero mathRound NUM_TILES
  have hq : 0 ≤ (1024 : ℚ) * city.population / totalPopulationOf cities :=
    div_nonneg (mul_nonneg (by norm_num) hpop) (le_of_lt htot)
  rw [if_pos hq, mul_div_assoc]

/-- Witness for C7 at a concrete half-integer share: population 1 of a
2048 total gives `1024 * 1 / 2048 = 1/2`, which rounds up to 1. -/
theorem claim_C7_witness :
    cityNumTiles (totalPopulationOf [⟨"A", 1⟩, ⟨"B", 2047⟩]) ⟨"A", 1⟩ =
      roundHalfAwayFromZero
        (1024 * (⟨"A", 1⟩ : City).population /
          totalPopulationOf [⟨"A", 1⟩, ⟨"B", 2047⟩]) ∧
    cityNumTiles (totalPopulationOf [⟨"A", 1⟩, ⟨"B", 2047⟩]) ⟨"A", 1⟩ = 1 := by
  constructor
  · exact claim_C7_quota_rounding [⟨"A", 1⟩, ⟨"B", 2047⟩] ⟨"A", 1⟩
      (List.mem_cons_self ..) (by norm_num) (by norm_num [totalPopulationOf])
  · norm_num [cityNumTiles, mathRound, NUM_TILES, totalPopulationOf]

/-- C4: start-cell selection.  `findNearestOpenCell` returns the target
cell when it is valid and unclaimed, and otherwise the first valid
unclaimed cell of the fixed ring scan (radii `1, 2, …` while
`radius < max(gridWidth, gridHeight)`, offsets on each ring's perimeter
with `dx` the outer loop and `dy` the inner loop, first match in scan
order).  When the whole scan finds nothing, the location's tile list is
empty. -/
theorem claim_C4_start_cell_selection :
    (∀ (W H : Nat) (taken : List Int) (tx ty : Int),
      findNearestOpenCell W H taken tx ty = specStartCell W H taken tx ty) ∧
    (∀ (W H : Nat) (city : GridCity) (taken : List Int),
      findNearestOpenCell W H taken city.centerX city.centerY = none →
        (placeCity W H city taken).1 = []) := by
  refine ⟨findNearestOpenCell_eq_spec, ?_⟩
  intro W H city taken hnone
  simp [placeCity, hnone]

/-- Witness for C4: a saturated 1×1 grid yields no start cell and an
empty tile list; a free 2×2 grid agrees with the spec-side scan. -/
theorem claim_C4_witness :
    (placeCity 1 1 ⟨"A", 0, 0, 1⟩ [packCoordinate 1 0 0]).1 = [] ∧
    findNearestOpenCell 2 2 [] 1 1 = specStartCell 2 2 [] 1 1 :=
  ⟨claim_C4_start_cell_selection.2 1 1 ⟨"A", 0, 0, 1⟩ _ (by decide),
   claim_C4_start_cell_selection.1 2 2 [] 1 1⟩

/-- C10: when the start target is grid-valid and some valid cell is
unclaimed, `findNearestOpenCell` cannot return `null`: every grid cell
lies within Chebyshev distance `max(gridWidth, gridHeight) - 1` of the
valid target, and the ring scan covers exactly those radii, so the
zero-tiles branch is unreachable under this precondition. -/
theorem claim_C10_start_selection_total (W H : Nat) (taken : List Int)
    (tx ty : Int) (hval : isValidCell W H tx ty)
    (hfree : ∃ fx fy, isValidCell W H fx fy ∧ packCoordinate W fx fy ∉ taken) :
    ∃ c, findNearestOpenCell W H taken tx ty = some c := by
  cases hv : findNearestOpenCell W H taken tx ty with
  | some c => exact ⟨c, rfl⟩
  | none =>
    exfalso
    obtain ⟨fx, fy, hvalf, hfreef⟩ := hfree
    by_cases htf : packCoordinate W tx ty ∉ taken
    · unfold findNearestOpenCell at hv
      rw [if_pos ⟨hval, htf⟩] at hv
      cases hv
    · push_neg at htf
      unfold findNearestOpenCell at hv
      rw [if_neg (by intro hcond; exact hcond.2 htf)] at hv
      obtain ⟨hx1, hx2, hy1, hy2⟩ := hval
      obtain ⟨hfx1, hfx2, hfy1, hfy2⟩ := hvalf
      have hne : ¬(fx = tx ∧ fy = ty) := by
        rintro ⟨rfl, rfl⟩
        exact hfreef htf
      have ha0 : 0 ≤ jsAbs (fx - tx) := jsAbs_nonneg _
      have hb0 : 0 ≤ jsAbs (fy - ty) := jsAbs_nonneg _
      have haW : jsAbs (fx - tx) ≤ (W : Int) - 1 := jsAbs_le.2 ⟨by omega, by omega⟩
      have hbH : jsAbs (fy - ty) ≤ (H : Int) - 1 := jsAbs_le.2 ⟨by omega, by omega⟩
      have hab1 : 1 ≤ max (jsAbs (fx - tx)) (jsAbs (fy - ty)) := by
        by_cases hxx : fx = tx
        · have hyy : fy ≠ ty := fun hyy => hne ⟨hxx, hyy⟩
          exact le_max_of_le_right (one_le_jsAbs (by omega))
        · exact le_max_of_le_left (one_le_jsAbs (by omega))
      have hrnn : 0 ≤ max (jsAbs (fx - tx)) (jsAbs (fy - ty)) := le_trans (by omega) hab1
      have hr : ((max (jsAbs (fx - tx)) (jsAbs (fy - ty))).toNat : Int) =
          max (jsAbs (fx - tx)) (jsAbs (fy - ty)) := Int.toNat_of_nonneg hrnn
      have hWle : ((W : Nat) : Int) ≤ ((max W H : Nat) : Int) := by
        exact_mod_cast Nat.le_max_left W H
      have hHle : ((H : Nat) : Int) ≤ ((max W H : Nat) : Int) := by
        exact_mod_cast Nat.le_max_right W H
      have hrmax : max (jsAbs (fx - tx)) (jsAbs (fy - ty)) ≤ ((max W H : Nat) : Int) - 1 := by
        rcases max_choice (jsAbs (fx - tx)) (jsAbs (fy - ty)) with h | h <;> rw [h] <;> omega
      have hrmem : (max (jsAbs (fx - tx)) (jsAbs (fy - ty))).toNat ∈
          List.range' 1 (max W H - 1) := by
        rw [List.mem_range'_1]
        constructor
        · omega
        · omega
      have hdmem : (fx - tx, fy - ty) ∈
          ringOffsets (max (jsAbs (fx - tx)) (jsAbs (fy - ty))).toNat := by
        rw [mem_ringOffsets]
        refine ⟨?_, ?_, ?_⟩
        · rw [hr]; exact le_max_left _ _
        · rw [hr]; exact le_max_right _ _
        · rcases max_choice (jsAbs (fx - tx)) (jsAbs (fy - ty)) with h | h
          · left; rw [hr, h]
          · right; rw [hr, h]
      have h1 := List.findSome?_eq_none_iff.1 hv _ hrmem
      have h2 := List.findSome?_eq_none_iff.1 h1 _ hdmem
      dsimp only at h2
      rw [show tx + (fx - tx) = fx from by omega,
        show ty + (fy - ty) = fy from by omega] at h2
      rw [if_pos ⟨⟨hfx1, hfx2, hfy1, hfy2⟩, hfreef⟩] at h2
      cases h2

/-- Witness for C10: valid but claimed target on a 2×2 grid with a free
cell; selection still succeeds. -/
theorem claim_C10_witness :
    ∃ c, findNearestOpenCell 2 2 [packCoordinate 2 0 0] 0 0 = some c :=
  claim_C10_start_selection_total 2 2 [packCoordinate 2 0 0] 0 0 (by decide)
    ⟨0, 1, by decide, by decide⟩

/-- C5: growth step.  When the adjacency frontier (grid-valid, unclaimed
cells 8-adjacent to a cell already claimed by this location) is
non-empty, `findBestNextCell` claims a frontier cell whose squared
Euclidean distance to the original `(centerX, centerY)` is minimal over
the whole frontier (the source compares `Math.sqrt` of these integer
values, an order-preserving map). -/
theorem claim_C5_growth_frontier (W H : Nat) (taken : List Int) (cx cy : Int)
    (tiles : List Coordinate)
    (hne : adjacentCells W H taken tiles ≠ []) :
    ∃ c, findBestNextCell W H taken cx cy tiles = some c ∧
      isFrontierCell W H taken tiles c ∧
      ∀ c', isFrontierCell W H taken tiles c' →
        distanceToCenter cx cy c.x c.y ≤ distanceToCenter cx cy c'.x c'.y := by
  have hcand : candidatesFor W H taken cx cy tiles =
      (adjacentCells W H taken tiles).map (fun packedCoord =>
        ⟨(unpackCoordinate W packedCoord).x, (unpackCoordinate W packedCoord).y,
          distanceToCenter cx cy (unpackCoordinate W packedCoord).x
            (unpackCoordinate W packedCoord).y⟩) := by
    unfold candidatesFor
    rw [if_neg]
    intro hEmp
    exact hne (List.isEmpty_iff.1 hEmp)
  have hcne : candidatesFor W H taken cx cy tiles ≠ [] := by
    rw [hcand]
    intro hmapnil
    exact hne (List.map_eq_nil_iff.1 hmapnil)
  obtain ⟨b, hbest⟩ := bestCandidate_isSome hcne
  obtain ⟨hbmem, hbmin⟩ := bestCandidate_spec hbest
  obtain ⟨hbval, hbfree, hbdist⟩ := mem_candidatesFor hbmem
  refine ⟨⟨b.x, b.y⟩, ?_, ?_, ?_⟩
  · unfold findBestNextCell
    rw [hbest]
  · -- the chosen cell is a frontier cell
    rw [hcand] at hbmem
    obtain ⟨p, hp, heq⟩ := List.mem_map.1 hbmem
    obtain ⟨c', hc', hpack⟩ := mem_adjacentCells.1 hp
    subst hpack
    rw [unpackCoordinate_packCoordinate hc'.1] at heq
    subst heq
    exact hc'
  · intro c' hc'
    have hp' : packCoordinate W c'.x c'.y ∈ adjacentCells W H taken tiles :=
      mem_adjacentCells.2 ⟨c', hc', rfl⟩
    have hmem' : (⟨(unpackCoordinate W (packCoordinate W c'.x c'.y)).x,
        (unpackCoordinate W (packCoordinate W c'.x c'.y)).y,
        distanceToCenter cx cy (unpackCoordinate W (packCoordinate W c'.x c'.y)).x
          (unpackCoordinate W (packCoordinate W c'.x c'.y)).y⟩ : CandidateTile) ∈
        candidatesFor W H taken cx cy tiles := by
      rw [hcand]
      exact List.mem_map.2 ⟨packCoordinate W c'.x c'.y, hp', rfl⟩
    have := hbmin _ hmem'
    rw [unpackCoordinate_packCoordinate hc'.1] at this
    rw [hbdist] at this
    exact this

/-- Witness for C5: a single tile at the origin of a 3×3 grid with only
the origin claimed; the frontier is non-empty. -/
theorem claim_C5_witness :
    ∃ c, findBestNextCell 3 3 [packCoordinate 3 0 0] 0 0 [⟨0, 0⟩] = some c ∧
      isFrontierCell 3 3 [packCoordinate 3 0 0] [⟨0, 0⟩] c ∧
      ∀ c', isFrontierCell 3 3 [packCoordinate 3 0 0] [⟨0, 0⟩] c' →
        distanceToCenter 0 0 c.x c.y ≤ distanceToCenter 0 0 c'.x c'.y :=
  claim_C5_growth_frontier 3 3 [packCoordinate 3 0 0] 0 0 [⟨0, 0⟩] (by decide)

/-- C6: fallback search.  With an empty adjacency frontier,
`findBestNextCell` selects among the fallback spiral collection — the
first (up to) 50 valid unclaimed cells of the ring scan of radii
`0, 1, …` bounded by `max(gridWidth, gridHeight)` around the (integer)
center — a candidate of minimal distance to the center; when that
collection is empty it returns `null`, and the growth loop then stops
with the tiles claimed so far (a partial allocation, no error). -/
theorem claim_C6_fallback (W H : Nat) (taken : List Int) (cx cy : Int)
    (tiles : List Coordinate)
    (hempty : adjacentCells W H taken tiles = []) :
    (∀ c, findBestNextCell W H taken cx cy tiles = some c →
      ∃ cand ∈ fallbackCandidates W H taken cx cy,
        c = ⟨cand.x, cand.y⟩ ∧
        ∀ cand' ∈ fallbackCandidates W H taken cx cy,
          cand.distanceToCenter ≤ cand'.distanceToCenter) ∧
    (fallbackCandidates W H taken cx cy = [] →
      findBestNextCell W H taken cx cy tiles = none) ∧
    (fallbackCandidates W H taken cx cy).length ≤ MAX_FALLBACK_CANDIDATES ∧
    (∀ (n : Nat) (tiles2 : List Coordinate) (taken2 : List Int),
      findBestNextCell W H taken2 cx cy tiles2 = none →
        growCity W H cx cy (n + 1) tiles2 taken2 = (tiles2, taken2)) := by
  have hcand : candidatesFor W H taken cx cy tiles =
      fallbackCandidates W H taken cx cy := by
    unfold candidatesFor
    rw [if_pos]
    rw [hempty]
    rfl
  refine ⟨?_, ?_, ?_, ?_⟩
  · intro c hc
    unfold findBestNextCell at hc
    split at hc
    · rename_i best hbest
      injection hc with hc
      subst hc
      rw [hcand] at hbest
      obtain ⟨hbmem, hbmin⟩ := bestCandidate_spec hbest
      exact ⟨best, hbmem, rfl, hbmin⟩
    · cases hc
  · intro hnil
    unfold findBestNextCell
    rw [hcand, bestCandidate_eq_none hnil]
  · unfold fallbackCandidates
    exact List.length_take_le ..
  · intro n tiles2 taken2 hnone
    simp [growCity, hnone]

/-- Witness for C6: a fully claimed 1×1 grid; the frontier is empty, the
fallback collection is empty, the next-cell search returns `null` and the
growth loop stops where it is. -/
theorem claim_C6_witness :
    findBestNextCell 1 1 [packCoordinate 1 0 0] 0 0 [⟨0, 0⟩] = none ∧
    growCity 1 1 0 0 1 [⟨0, 0⟩] [packCoordinate 1 0 0] =
      ([⟨0, 0⟩], [packCoordinate 1 0 0]) := by
  have h := claim_C6_fallback 1 1 [packCoordinate 1 0 0] 0 0 [⟨0, 0⟩] (by decide)
  have h2 := h.2.1 (by decide)
  exact ⟨h2, h.2.2.2 0 [⟨0, 0⟩] [packCoordinate 1 0 0] h2⟩

/-! ### Global placement invariants -/

theorem nodup_flatMap_parts {α β : Type} (f : α → List β) :
    ∀ l : List α, (l.flatMap f).Nodup →
      (∀ a ∈ l, (f a).Nodup) ∧ l.Pairwise (fun a b => ∀ x ∈ f a, x ∉ f b) := by
  intro l
  induction l with
  | nil => intro _; exact ⟨by simp, List.Pairwise.nil⟩
  | cons a rest ih =>
    intro h
    rw [List.flatMap_cons, List.nodup_append] at h
    obtain ⟨h1, h2, h3⟩ := h
    obtain ⟨ih1, ih2⟩ := ih h2
    refine ⟨?_, ?_⟩
    · intro a' ha'
      rcases List.mem_cons.1 ha' with rfl | ha'
      · exact h1
      · exact ih1 a' ha'
    · rw [List.pairwise_cons]
      refine ⟨?_, ih2⟩
      intro b hb x hx
      intro hxb
      exact h3 hx (List.mem_flatMap.2 ⟨b, hb, hxb⟩)

theorem generate_packs_nodup (cities : List GridCity) (W H : Nat) :
    (allPacks W (generate cities W H)).Nodup := by
  unfold generate
  have h := (placeTilesAux_spec W H (sortCities cities) 0 []).2.2.2.1 List.nodup_nil
  simpa using h

theorem generate_tiles_valid (cities : List GridCity) (W H : Nat) :
    ∀ ct ∈ generate cities W H, ∀ c ∈ ct.tiles, isValidCell W H c.x c.y := by
  unfold generate
  exact (placeTilesAux_spec W H (sortCities cities) 0 []).2.2.1

theorem generate_coords_nodup (cities : List GridCity) (W H : Nat) :
    ((generate cities W H).flatMap (fun ct => ct.tiles)).Nodup := by
  have h := generate_packs_nodup cities W H
  unfold allPacks at h
  rw [← List.map_flatMap] at h
  exact List.Nodup.of_map _ h

/-- C1: uniqueness.  In every generated result, no coordinate appears in
two different locations' tile lists, and no coordinate appears twice
within a single location's list. -/
theorem claim_C1_uniqueness (cities : List GridCity) (W H : Nat) :
    (∀ ct ∈ generate cities W H, ct.tiles.Nodup) ∧
    (generate cities W H).Pairwise (fun a b => ∀ c ∈ a.tiles, c ∉ b.tiles) :=
  nodup_flatMap_parts (fun ct => ct.tiles) (generate cities W H)
    (generate_coords_nodup cities W H)

/-- Witness for C1 on a concrete two-city run. -/
theorem claim_C1_witness :
    (⟨1, "A", [⟨0, 0⟩, ⟨0, 1⟩], getColor 1⟩ : CityTiles).tiles.Nodup :=
  (claim_C1_uniqueness [⟨"A", 0, 0, 2⟩, ⟨"B", 1, 1, 1⟩] 3 3).1
    ⟨1, "A", [⟨0, 0⟩, ⟨0, 1⟩], getColor 1⟩ (by decide)

/-- C8: validity.  Every coordinate in every generated tile list satisfies
`0 <= x < gridWidth` and `0 <= y < gridHeight`. -/
theorem claim_C8_validity (cities : List GridCity) (W H : Nat) :
    ∀ ct ∈ generate cities W H, ∀ c ∈ ct.tiles, isValidCell W H c.x c.y :=
  generate_tiles_valid cities W H

/-- Witness for C8 on a concrete run. -/
theorem claim_C8_witness : isValidCell 2 2 (0 : Int) 0 :=
  claim_C8_validity [⟨"A", 0, 0, 1⟩] 2 2 ⟨0, "A", [⟨0, 0⟩], getColor 0⟩ (by decide)
    ⟨0, 0⟩ (by decide)

/-- Counterexample to C2 as stated: a location with `tileQuota = 0` still
claims its start cell (`placeTiles` claims a start cell before consulting
`numTiles`), so its tile list has length `1 > 0` even though the grid had
free cells when it was processed. -/
theorem claim_C2_counterexample :
    ∃ ct ∈ generate [⟨"A", 0, 0, 0⟩] 1 1,
      (⟨"A", 0, 0, 0⟩ : GridCity).numTiles < ct.tiles.length := by
  decide

/-- C2 (amended): for every location in the generated output, the tile
list has length at most `max(tileQuota, 1)` — one start cell is claimed
whenever one exists, even for `tileQuota = 0` — and a count strictly
below `tileQuota` occurs only when no candidate cell remained at the
moment the location stopped growing (start-cell search failed, or
`findBestNextCell` returned `null` on the location's final state). -/
theorem claim_C2_quota_bound (cities : List GridCity) (W H : Nat)
    (i : Nat) (city : GridCity) (hcity : (sortCities cities)[i]? = some city)
    (ct : CityTiles) (hct : (generate cities W H)[i]? = some ct) :
    ct.tiles.length ≤ max city.numTiles 1 ∧
    (ct.tiles.length < city.numTiles →
      ∃ t0, placeCity W H city t0 =
          (ct.tiles, t0 ++ ct.tiles.map (fun c => packCoordinate W c.x c.y)) ∧
        ((ct.tiles = [] ∧
            findNearestOpenCell W H t0 city.centerX city.centerY = none) ∨
          findBestNextCell W H
            (t0 ++ ct.tiles.map (fun c => packCoordinate W c.x c.y))
            city.centerX city.centerY ct.tiles = none)) := by
  obtain ⟨t0, ht0⟩ := (placeTilesAux_spec W H (sortCities cities) 0 []).2.2.2.2 i city hcity
  unfold generate at hct
  rw [ht0] at hct
  injection hct with hct
  subst hct
  obtain ⟨tiles, heq, _, _, hlen, hstop⟩ := placeCity_spec W H city t0
  have hfst : (placeCity W H city t0).1 = tiles := by rw [heq]
  refine ⟨?_, ?_⟩
  · simp only [hfst]
    exact hlen
  · intro hlt
    simp only [hfst] at hlt ⊢
    refine ⟨t0, ?_, ?_⟩
    · exact heq
    · rcases hstop hlt with ⟨hnil, hnone⟩ | hnext
      · exact Or.inl ⟨hnil, hnone⟩
      · exact Or.inr hnext

/-- Witness for the amended C2 on a concrete run that meets its quota. -/
theorem claim_C2_witness :
    (⟨0, "A", [⟨0, 0⟩, ⟨0, 1⟩], getColor 0⟩ : CityTiles).tiles.length ≤
      max (⟨"A", 0, 0, 2⟩ : GridCity).numTiles 1 :=
  (claim_C2_quota_bound [⟨"A", 0, 0, 2⟩] 2 2 0 ⟨"A", 0, 0, 2⟩ (by decide)
    ⟨0, "A", [⟨0, 0⟩, ⟨0, 1⟩], getColor 0⟩ (by decide)).1

/-! ### The constructor's sort -/

theorem sortCities_perm (cities : List GridCity) : (sortCities cities).Perm cities :=
  List.perm_insertionSort _ cities

theorem sortCities_length (cities : List GridCity) :
    (sortCities cities).length = cities.length := by
  unfold sortCities
  exact List.length_insertionSort _ _

theorem sortCities_sorted (cities : List GridCity) :
    (sortCities cities).Pairwise (fun a b => a.numTiles ≤ b.numTiles) := by
  unfold sortCities
  have htot : IsTotal GridCity (fun a b => a.numTiles ≤ b.numTiles) :=
    ⟨fun a b => Nat.le_total a.numTiles b.numTiles⟩
  have htrans : IsTrans GridCity (fun a b => a.numTiles ≤ b.numTiles) :=
    ⟨fun a b c hab hbc => Nat.le_trans hab hbc⟩
  exact @List.sorted_insertionSort GridCity (fun a b => a.numTiles ≤ b.numTiles)
    (fun a b => Nat.decLe a.numTiles b.numTiles) htot htrans cities

theorem sortCities_filter (cities : List GridCity) (q : Nat) :
    (sortCities cities).filter (fun c => c.numTiles == q) =
      cities.filter (fun c => c.numTiles == q) := by
  have hpair : (cities.filter (fun c => c.numTiles == q)).Pairwise
      (fun a b => a.numTiles ≤ b.numTiles) := by
    apply List.pairwise_of_forall_mem_list
    intro a ha b hb
    have ha' := (List.mem_filter.1 ha).2
    have hb' := (List.mem_filter.1 hb).2
    simp only [beq_iff_eq] at ha' hb'
    omega
  have hsub : List.Sublist (cities.filter (fun c => c.numTiles == q)) (sortCities cities) := by
    unfold sortCities
    exact List.sublist_insertionSort hpair (List.filter_sublist cities)
  have hidem : (cities.filter (fun c => c.numTiles == q)).filter
      (fun c => c.numTiles == q) = cities.filter (fun c => c.numTiles == q) :=
    List.filter_eq_self.2 (fun a ha => (List.mem_filter.1 ha).2)
  have hsub2 := hsub.filter (fun c => c.numTiles == q)
  rw [hidem] at hsub2
  have hperm : ((sortCities cities).filter (fun c => c.numTiles == q)).Perm
      (cities.filter (fun c => c.numTiles == q)) :=
    (sortCities_perm cities).filter _
  exact (hsub2.eq_of_length hperm.length_eq.symm).symm

theorem generate_length (cities : List GridCity) (W H : Nat) :
    (generate cities W H).length = cities.length := by
  unfold generate
  rw [(placeTilesAux_spec W H (sortCities cities) 0 []).2.1, sortCities_length]

theorem generate_record (cities : List GridCity) (W H : Nat) (i : Nat)
    (city : GridCity) (hcity : (sortCities cities)[i]? = some city) :
    ∃ t0, (generate cities W H)[i]? =
      some ⟨i, city.name, (placeCity W H city t0).1, getColor i⟩ := by
  obtain ⟨t0, ht0⟩ :=
    (placeTilesAux_spec W H (sortCities cities) 0 []).2.2.2.2 i city hcity
  refine ⟨t0, ?_⟩
  unfold generate
  rw [ht0]
  simp

/-- C3: processing order.  The generator handles locations in ascending
`numTiles` order with ties kept in input order (the stable sort
characterization: the output of `sortCities` is a permutation of the
input, pairwise ascending in quota, and preserves the input subsequence
at every quota value), the generated records appear in exactly that
order, and each record's `index` equals its position. -/
theorem claim_C3_sorted_order (cities : List GridCity) (W H : Nat) :
    (generate cities W H).map (fun ct => ct.index) = List.range cities.length ∧
    (generate cities W H).map (fun ct => ct.cityName) =
      (sortCities cities).map (fun c => c.name) ∧
    (sortCities cities).Perm cities ∧
    (sortCities cities).Pairwise (fun a b => a.numTiles ≤ b.numTiles) ∧
    ∀ q : Nat, (sortCities cities).filter (fun c => c.numTiles == q) =
      cities.filter (fun c => c.numTiles == q) := by
  refine ⟨?_, ?_, sortCities_perm cities, sortCities_sorted cities,
    fun q => sortCities_filter cities q⟩
  · apply List.ext_getElem?
    intro i
    rw [List.getElem?_map]
    by_cases hi : i < cities.length
    · have hi' : i < (sortCities cities).length := by rw [sortCities_length]; exact hi
      obtain ⟨city, hcity⟩ : ∃ city, (sortCities cities)[i]? = some city :=
        ⟨_, List.getElem?_eq_getElem hi'⟩
      obtain ⟨t0, ht0⟩ := generate_record cities W H i city hcity
      rw [ht0, List.getElem?_range hi]
      rfl
    · rw [List.getElem?_eq_none (by rw [generate_length]; omega),
        List.getElem?_eq_none (by rw [List.length_range]; omega)]
      rfl
  · apply List.ext_getElem?
    intro i
    rw [List.getElem?_map, List.getElem?_map]
    by_cases hi : i < cities.length
    · have hi' : i < (sortCities cities).length := by rw [sortCities_length]; exact hi
      obtain ⟨city, hcity⟩ : ∃ city, (sortCities cities)[i]? = some city :=
        ⟨_, List.getElem?_eq_getElem hi'⟩
      obtain ⟨t0, ht0⟩ := generate_record cities W H i city hcity
      rw [ht0, hcity]
      rfl
    · rw [List.getElem?_eq_none (by rw [generate_length]; omega),
        List.getElem?_eq_none (by rw [sortCities_length]; omega)]
      rfl

/-! ### The render transform (`renderMap`)

The component builds a `(2*gridWidth+1) x (2*gridHeight+1)` render grid:
city tiles are written at odd positions, then a pass over the interior
even positions `(x, y)` (x, y even, `2 ≤ x ≤ 2*gridWidth-2`,
`2 ≤ y ≤ 2*gridHeight-2`) fills border cells `(x, y-1)`, `(x-1, y)` and
the corner `(x, y)` from the four diagonal neighbors.  The grid is
modelled as a total function `Int → Int → Option Nat` (`null` = no
assignment) updated functionally; the second pass reads only odd-odd
positions and writes only other positions, exactly as the array code. -/

/-- A single render-grid cell assignment (array store). -/
def updateGrid (g : Int → Int → Option Nat) (ux uy : Int) (v : Option Nat) :
    Int → Int → Option Nat :=
  fun x y => if x = ux ∧ y = uy then v else g x y

/-- Pass 1: `renderGrid[2*y+1][2*x+1] = cityData.index` over all records
and tiles, in order (later writes overwrite earlier ones). -/
def fillCityTiles (cts : List CityTiles) : Int → Int → Option Nat :=
  cts.foldl (fun g ct =>
    ct.tiles.foldl (fun g2 t =>
      updateGrid g2 (2 * t.x + 1) (2 * t.y + 1) (some ct.index)) g)
    (fun _ _ => none)

/-- The interior even positions visited by pass 2, row-major:
`y = 2, 4, …` while `y < 2*gridHeight - 1` outside,
`x = 2, 4, …` while `x < 2*gridWidth - 1` inside. -/
def pass2Targets (W H : Nat) : List (Int × Int) :=
  (List.range' 1 (H - 1)).flatMap (fun (j : Nat) =>
    (List.range' 1 (W - 1)).map (fun (i : Nat) => (2 * (i : Int), 2 * (j : Int))))

/-- One iteration of pass 2 at even position `xy`: read the four diagonal
neighbors (all at odd-odd positions, untouched by this pass) and
conditionally assign the two border cells and the corner. -/
def pass2Step (g : Int → Int → Option Nat) (xy : Int × Int) :
    Int → Int → Option Nat :=
  match g (xy.1 - 1) (xy.2 - 1) with
  | none => g
  | some v =>
    let g1 := if g (xy.1 + 1) (xy.2 - 1) = some v then
        updateGrid g xy.1 (xy.2 - 1) (some v) else g
    let g2 := if g (xy.1 - 1) (xy.2 + 1) = some v then
        updateGrid g1 (xy.1 - 1) xy.2 (some v) else g1
    if g (xy.1 + 1) (xy.2 - 1) = some v ∧ g (xy.1 - 1) (xy.2 + 1) = some v ∧
        g (xy.1 + 1) (xy.2 + 1) = some v then
      updateGrid g2 xy.1 xy.2 (some v)
    else g2

/-- The full render grid construction of `renderMap`. -/
def renderGrid (cts : List CityTiles) (W H : Nat) : Int → Int → Option Nat :=
  (pass2Targets W H).foldl pass2Step (fillCityTiles cts)

/-- The index assigned to a claimed tile cell: the index of the last
record whose tile list contains the coordinate (pass 1 writes in record
order, so a later record overwrites an earlier one; with disjoint tile
lists this is simply "its location's index"). -/
def tileIndexAt (cts : List CityTiles) (x y : Int) : Option Nat :=
  ((cts.filter (fun ct => ct.tiles.contains ⟨x, y⟩)).getLast?).map (fun ct => ct.index)

/-- The tile-cell value at an odd-odd render position `(rx, ry)`,
decoding `rx = 2x+1`, `ry = 2y+1`. -/
def oddTileCell (cts : List CityTiles) (rx ry : Int) : Option Nat :=
  tileIndexAt cts ((rx - 1) / 2) ((ry - 1) / 2)

/-- The render grid as the spec words it, cell by cell: tiles at odd-odd
positions; a horizontal border cell `(ex, ey-1)` assigned exactly when the
up-left and up-right diagonal neighbors of the interior even position
`(ex, ey)` are assigned and equal; a vertical border cell `(ex-1, ey)`
assigned exactly when up-left equals down-left; the corner `(ex, ey)`
assigned exactly when all four diagonal neighbors are assigned and equal;
every other cell unassigned. -/
def specRenderCell (cts : List CityTiles) (W H : Nat) (rx ry : Int) : Option Nat :=
  if rx % 2 = 1 ∧ ry % 2 = 1 then
    oddTileCell cts rx ry
  else if rx % 2 = 0 ∧ ry % 2 = 1 ∧ 2 ≤ rx ∧ rx ≤ 2 * (W : Int) - 2 ∧
      2 ≤ ry + 1 ∧ ry + 1 ≤ 2 * (H : Int) - 2 then
    match oddTileCell cts (rx - 1) ry with
    | some v => if oddTileCell cts (rx + 1) ry = some v then some v else none
    | none => none
  else if rx % 2 = 1 ∧ ry % 2 = 0 ∧ 2 ≤ rx + 1 ∧ rx + 1 ≤ 2 * (W : Int) - 2 ∧
      2 ≤ ry ∧ ry ≤ 2 * (H : Int) - 2 then
    match oddTileCell cts rx (ry - 1) with
    | some v => if oddTileCell cts rx (ry + 1) = some v then some v else none
    | none => none
  else if rx % 2 = 0 ∧ ry % 2 = 0 ∧ 2 ≤ rx ∧ rx ≤ 2 * (W : Int) - 2 ∧
      2 ≤ ry ∧ ry ≤ 2 * (H : Int) - 2 then
    match oddTileCell cts (rx - 1) (ry - 1) with
    | some v => if oddTileCell cts (rx + 1) (ry - 1) = some v ∧
          oddTileCell cts (rx - 1) (ry + 1) = some v ∧
          oddTileCell cts (rx + 1) (ry + 1) = some v then some v else none
    | none => none
  else none

/-- The value pass 2 would write at a non-tile cell `(a, b)`, read off the
pass-1 grid `B`: the border/corner conditions of the spec, stated on the
diagonal tile neighbors of the writing iteration. -/
def specCondValue (B : Int → Int → Option Nat) (a b : Int) : Option Nat :=
  if a % 2 = 0 ∧ b % 2 = 1 then
    match B (a - 1) b with
    | some v => if B (a + 1) b = some v then some v else none
    | none => none
  else if a % 2 = 1 ∧ b % 2 = 0 then
    match B a (b - 1) with
    | some v => if B a (b + 1) = some v then some v else none
    | none => none
  else if a % 2 = 0 ∧ b % 2 = 0 then
    match B (a - 1) (b - 1) with
    | some v => if B (a + 1) (b - 1) = some v ∧ B (a - 1) (b + 1) = some v ∧
          B (a + 1) (b + 1) = some v then some v else none
    | none => none
  else none

/-- The unique pass-2 iteration whose writes can reach cell `(a, b)`. -/
def writerOf (a b : Int) : Int × Int :=
  if a % 2 = 0 ∧ b % 2 = 1 then (a, b + 1)
  else if a % 2 = 1 ∧ b % 2 = 0 then (a + 1, b)
  else (a, b)

theorem updateGrid_same (g : Int → Int → Option Nat) (ux uy : Int) (v : Option Nat) :
    updateGrid g ux uy v ux uy = v := by
  simp [updateGrid]

theorem updateGrid_other (g : Int → Int → Option Nat) (ux uy : Int) (v : Option Nat)
    (a b : Int) (h : ¬(a = ux ∧ b = uy)) : updateGrid g ux uy v a b = g a b := by
  simp only [updateGrid, if_neg h]

theorem pass2Step_apply_ne (g : Int → Int → Option Nat) (xy : Int × Int) (a b : Int)
    (h1 : ¬(a = xy.1 ∧ b = xy.2 - 1)) (h2 : ¬(a = xy.1 - 1 ∧ b = xy.2))
    (h3 : ¬(a = xy.1 ∧ b = xy.2)) :
    pass2Step g xy a b = g a b := by
  unfold pass2Step
  cases hul : g (xy.1 - 1) (xy.2 - 1) with
  | none => rfl
  | some v =>
    dsimp only
    by_cases hur : g (xy.1 + 1) (xy.2 - 1) = some v <;>
      by_cases hdl : g (xy.1 - 1) (xy.2 + 1) = some v <;>
        by_cases hdr : g (xy.1 + 1) (xy.2 + 1) = some v <;>
          simp [hur, hdl, hdr, updateGrid, h1, h2, h3]

theorem pass2_fold_oddodd (a b : Int) (ha : a % 2 = 1) (hb : b % 2 = 1) :
    ∀ (ts : List (Int × Int)) (g : Int → Int → Option Nat),
      (∀ t ∈ ts, t.1 % 2 = 0 ∧ t.2 % 2 = 0) →
      (ts.foldl pass2Step g) a b = g a b := by
  intro ts
  induction ts with
  | nil => intro g _; rfl
  | cons t rest ih =>
    intro g hts
    rw [List.foldl_cons, ih _ (fun t' ht' => hts t' (List.mem_cons_of_mem _ ht'))]
    obtain ⟨ht1, ht2⟩ := hts t (List.mem_cons_self ..)
    exact pass2Step_apply_ne g t a b (by omega) (by omega) (by omega)

theorem writes_imp_writer (t : Int × Int) (a b : Int)
    (ht1 : t.1 % 2 = 0) (ht2 : t.2 % 2 = 0)
    (h : (a = t.1 ∧ b = t.2 - 1) ∨ (a = t.1 - 1 ∧ b = t.2) ∨ (a = t.1 ∧ b = t.2)) :
    t = writerOf a b := by
  obtain ⟨t1, t2⟩ := t
  simp only at ht1 ht2 h
  unfold writerOf
  rcases h with ⟨ha', hb'⟩ | ⟨ha', hb'⟩ | ⟨ha', hb'⟩
  · rw [if_pos ⟨by omega, by omega⟩]
    simp only [Prod.mk.injEq]
    omega
  · rw [if_neg (by omega), if_pos ⟨by omega, by omega⟩]
    simp only [Prod.mk.injEq]
    omega
  · rw [if_neg (by omega), if_neg (by omega)]
    simp only [Prod.mk.injEq]
    omega

theorem pass2Step_at_evenodd (B g : Int → Int → Option Nat) (a b : Int)
    (hodd : ∀ u v : Int, u % 2 = 1 → v % 2 = 1 → g u v = B u v)
    (a0 : a % 2 = 0) (b1 : b % 2 = 1) :
    pass2Step g (a, b + 1) a b =
      match specCondValue B a b with
      | some v => some v
      | none => g a b := by
  have e1 : g (a - 1) b = B (a - 1) b := hodd _ _ (by omega) b1
  have e2 : g (a + 1) b = B (a + 1) b := hodd _ _ (by omega) b1
  have e3 : g (a - 1) (b + 2) = B (a - 1) (b + 2) := hodd _ _ (by omega) (by omega)
  have e4 : g (a + 1) (b + 2) = B (a + 1) (b + 2) := hodd _ _ (by omega) (by omega)
  unfold pass2Step specCondValue
  dsimp only
  rw [if_pos ⟨a0, b1⟩]
  rw [show b + 1 - 1 = b from by omega, show b + 1 + 1 = b + 2 from by omega]
  rw [e1, e2, e3, e4]
  cases hB : B (a - 1) b with
  | none => rfl
  | some v =>
    dsimp only
    by_cases hur : B (a + 1) b = some v <;>
      by_cases hdl : B (a - 1) (b + 2) = some v <;>
        by_cases hdr : B (a + 1) (b + 2) = some v <;>
          simp [hur, hdl, hdr, updateGrid,
            (show ¬((b : Int) = b + 1) from by omega),
            (show ¬((a : Int) = a - 1) from by omega)]

theorem pass2Step_at_oddeven (B g : Int → Int → Option Nat) (a b : Int)
    (hodd : ∀ u v : Int, u % 2 = 1 → v % 2 = 1 → g u v = B u v)
    (a1 : a % 2 = 1) (b0 : b % 2 = 0) :
    pass2Step g (a + 1, b) a b =
      match specCondValue B a b with
      | some v => some v
      | none => g a b := by
  have e1 : g a (b - 1) = B a (b - 1) := hodd _ _ a1 (by omega)
  have e2 : g (a + 2) (b - 1) = B (a + 2) (b - 1) := hodd _ _ (by omega) (by omega)
  have e3 : g a (b + 1) = B a (b + 1) := hodd _ _ a1 (by omega)
  have e4 : g (a + 2) (b + 1) = B (a + 2) (b + 1) := hodd _ _ (by omega) (by omega)
  unfold pass2Step specCondValue
  dsimp only
  rw [if_neg (by omega), if_pos ⟨a1, b0⟩]
  rw [show a + 1 - 1 = a from by omega, show a + 1 + 1 = a + 2 from by omega]
  rw [e1, e2, e3, e4]
  cases hB : B a (b - 1) with
  | none => rfl
  | some v =>
    dsimp only
    by_cases hur : B (a + 2) (b - 1) = some v <;>
      by_cases hdl : B a (b + 1) = some v <;>
        by_cases hdr : B (a + 2) (b + 1) = some v <;>
          simp [hur, hdl, hdr, updateGrid,
            (show ¬((a : Int) = a + 1) from by omega)]

theorem pass2Step_at_eveneven (B g : Int → Int → Option Nat) (a b : Int)
    (hodd : ∀ u v : Int, u % 2 = 1 → v % 2 = 1 → g u v = B u v)
    (a0 : a % 2 = 0) (b0 : b % 2 = 0) :
    pass2Step g (a, b) a b =
      match specCondValue B a b with
      | some v => some v
      | none => g a b := by
  have e1 : g (a - 1) (b - 1) = B (a - 1) (b - 1) := hodd _ _ (by omega) (by omega)
  have e2 : g (a + 1) (b - 1) = B (a + 1) (b - 1) := hodd _ _ (by omega) (by omega)
  have e3 : g (a - 1) (b + 1) = B (a - 1) (b + 1) := hodd _ _ (by omega) (by omega)
  have e4 : g (a + 1) (b + 1) = B (a + 1) (b + 1) := hodd _ _ (by omega) (by omega)
  unfold pass2Step specCondValue
  dsimp only
  rw [if_neg (by omega), if_neg (by omega), if_pos ⟨a0, b0⟩]
  rw [e1, e2, e3, e4]
  cases hB : B (a - 1) (b - 1) with
  | none => rfl
  | some v =>
    dsimp only
    by_cases hur : B (a + 1) (b - 1) = some v <;>
      by_cases hdl : B (a - 1) (b + 1) = some v <;>
        by_cases hdr : B (a + 1) (b + 1) = some v <;>
          simp [hur, hdl, hdr, updateGrid,
            (show ¬((b : Int) = b - 1) from by omega),
            (show ¬((a : Int) = a - 1) from by omega)]

theorem pass2_fold_char (B : Int → Int → Option Nat) :
    ∀ (ts : List (Int × Int)) (g : Int → Int → Option Nat),
      (∀ t ∈ ts, t.1 % 2 = 0 ∧ t.2 % 2 = 0) →
      (∀ u v : Int, u % 2 = 1 → v % 2 = 1 → g u v = B u v) →
      ∀ a b : Int, ¬(a % 2 = 1 ∧ b % 2 = 1) →
      (ts.foldl pass2Step g) a b =
        if writerOf a b ∈ ts ∧ (specCondValue B a b).isSome then specCondValue B a b
        else g a b := by
  intro ts
  induction ts with
  | nil =>
    intro g _ _ a b _
    simp
  | cons t rest ih =>
    intro g hts hodd a b hnot
    obtain ⟨ht1, ht2⟩ := hts t (List.mem_cons_self ..)
    have hodd' : ∀ u v : Int, u % 2 = 1 → v % 2 = 1 → pass2Step g t u v = B u v := by
      intro u v hu hv
      rw [pass2Step_apply_ne g t u v (by omega) (by omega) (by omega)]
      exact hodd u v hu hv
    rw [List.foldl_cons,
      ih (pass2Step g t) (fun t' ht' => hts t' (List.mem_cons_of_mem _ ht')) hodd' a b hnot]
    by_cases hmem : writerOf a b ∈ rest ∧ (specCondValue B a b).isSome
    · rw [if_pos hmem, if_pos ⟨List.mem_cons_of_mem _ hmem.1, hmem.2⟩]
    · rw [if_neg hmem]
      by_cases hwt : t = writerOf a b
      · have hstep : pass2Step g t a b =
            match specCondValue B a b with
            | some v => some v
            | none => g a b := by
          have hpa : a % 2 = 0 ∨ a % 2 = 1 := by omega
          have hpb : b % 2 = 0 ∨ b % 2 = 1 := by omega
          rcases hpa with a0 | a1
          · rcases hpb with b0 | b1
            · have hwt' : t = (a, b) := by
                rw [hwt]
                unfold writerOf
                rw [if_neg (by omega), if_neg (by omega)]
              rw [hwt']
              exact pass2Step_at_eveneven B g a b hodd a0 b0
            · have hwt' : t = (a, b + 1) := by
                rw [hwt]
                unfold writerOf
                rw [if_pos ⟨a0, b1⟩]
              rw [hwt']
              exact pass2Step_at_evenodd B g a b hodd a0 b1
          · rcases hpb with b0 | b1
            · have hwt' : t = (a + 1, b) := by
                rw [hwt]
                unfold writerOf
                rw [if_neg (by omega), if_pos ⟨a1, b0⟩]
              rw [hwt']
              exact pass2Step_at_oddeven B g a b hodd a1 b0
            · exact absurd ⟨a1, b1⟩ hnot
        rw [hstep]
        cases hsc : specCondValue B a b with
        | some v =>
          rw [if_pos ⟨by rw [← hwt]; exact List.mem_cons_self .., rfl⟩]
        | none =>
          rw [if_neg (fun hcon => Bool.noConfusion hcon.2)]
      · have hnowrite : pass2Step g t a b = g a b := by
          refine pass2Step_apply_ne g t a b ?_ ?_ ?_
          · intro hcon
            exact hwt (writes_imp_writer t a b ht1 ht2 (Or.inl hcon))
          · intro hcon
            exact hwt (writes_imp_writer t a b ht1 ht2 (Or.inr (Or.inl hcon)))
          · intro hcon
            exact hwt (writes_imp_writer t a b ht1 ht2 (Or.inr (Or.inr hcon)))
        rw [hnowrite]
        rw [if_neg]
        rintro ⟨hmem', hsome⟩
        rcases List.mem_cons.1 hmem' with heq | hmem'
        · exact hwt heq.symm
        · exact hmem ⟨hmem', hsome⟩

theorem fill_inner_char (idx : Nat) :
    ∀ (tiles : List Coordinate) (g : Int → Int → Option Nat) (a b : Int),
      (tiles.foldl (fun g2 t =>
          updateGrid g2 (2 * t.x + 1) (2 * t.y + 1) (some idx)) g) a b =
        if ∃ t ∈ tiles, 2 * t.x + 1 = a ∧ 2 * t.y + 1 = b then some idx
        else g a b := by
  intro tiles
  induction tiles with
  | nil => intro g a b; simp
  | cons t rest ih =>
    intro g a b
    rw [List.foldl_cons, ih]
    by_cases hrest : ∃ t' ∈ rest, 2 * t'.x + 1 = a ∧ 2 * t'.y + 1 = b
    · rw [if_pos hrest, if_pos ?_]
      obtain ⟨t', ht', he⟩ := hrest
      exact ⟨t', List.mem_cons_of_mem _ ht', he⟩
    · rw [if_neg hrest]
      unfold updateGrid
      by_cases hhead : a = 2 * t.x + 1 ∧ b = 2 * t.y + 1
      · rw [if_pos hhead, if_pos ⟨t, List.mem_cons_self .., hhead.1.symm, hhead.2.symm⟩]
      · rw [if_neg hhead, if_neg ?_]
        rintro ⟨t', ht', he1, he2⟩
        rcases List.mem_cons.1 ht' with rfl | ht'
        · exact hhead ⟨he1.symm, he2.symm⟩
        · exact hrest ⟨t', ht', he1, he2⟩

theorem fill_outer_even (cts : List CityTiles) (a b : Int)
    (h : ¬(a % 2 = 1 ∧ b % 2 = 1)) :
    ∀ g : Int → Int → Option Nat,
      (cts.foldl (fun g ct =>
        ct.tiles.foldl (fun g2 t =>
          updateGrid g2 (2 * t.x + 1) (2 * t.y + 1) (some ct.index)) g) g) a b =
      g a b := by
  induction cts with
  | nil => intro g; rfl
  | cons ct rest ih =>
    intro g
    rw [List.foldl_cons, ih, fill_inner_char]
    rw [if_neg]
    rintro ⟨t, _, he1, he2⟩
    exact h ⟨by omega, by omega⟩

theorem mem_decode_iff {tiles : List Coordinate} {a b : Int}
    (ha : a % 2 = 1) (hb : b % 2 = 1) :
    (∃ t ∈ tiles, 2 * t.x + 1 = a ∧ 2 * t.y + 1 = b) ↔
      (⟨(a - 1) / 2, (b - 1) / 2⟩ : Coordinate) ∈ tiles := by
  constructor
  · rintro ⟨t, ht, he1, he2⟩
    have hx : (a - 1) / 2 = t.x := by omega
    have hy : (b - 1) / 2 = t.y := by omega
    rw [hx, hy]
    exact ht
  · intro hmem
    refine ⟨_, hmem, ?_, ?_⟩ <;> (simp only; omega)

theorem fill_outer_odd (a b : Int) (ha : a % 2 = 1) (hb : b % 2 = 1) :
    ∀ (cts : List CityTiles) (g : Int → Int → Option Nat),
      (cts.foldl (fun g ct =>
          ct.tiles.foldl (fun g2 t =>
            updateGrid g2 (2 * t.x + 1) (2 * t.y + 1) (some ct.index)) g) g) a b =
        match (cts.filter (fun ct =>
            ct.tiles.contains ⟨(a - 1) / 2, (b - 1) / 2⟩)).getLast? with
        | some ct => some ct.index
        | none => g a b := by
  intro cts
  induction cts using List.reverseRecOn with
  | nil => intro g; rfl
  | append_singleton cs ct ih =>
    intro g
    rw [List.foldl_append, List.foldl_cons, List.foldl_nil, fill_inner_char]
    rw [List.filter_append]
    by_cases hct : (⟨(a - 1) / 2, (b - 1) / 2⟩ : Coordinate) ∈ ct.tiles
    · rw [if_pos ((mem_decode_iff ha hb).2 hct)]
      have : List.filter (fun ct =>
          ct.tiles.contains ⟨(a - 1) / 2, (b - 1) / 2⟩) [ct] = [ct] := by
        simp [List.filter_cons, hct]
      rw [this, List.getLast?_concat]
    · rw [if_neg (fun hx => hct ((mem_decode_iff ha hb).1 hx))]
      have : List.filter (fun ct =>
          ct.tiles.contains ⟨(a - 1) / 2, (b - 1) / 2⟩) [ct] = [] := by
        simp [List.filter_cons, hct]
      rw [this, List.append_nil, ih]

theorem fillCityTiles_char (cts : List CityTiles) (a b : Int) :
    fillCityTiles cts a b =
      if a % 2 = 1 ∧ b % 2 = 1 then oddTileCell cts a b else none := by
  by_cases h : a % 2 = 1 ∧ b % 2 = 1
  · rw [if_pos h]
    unfold fillCityTiles
    rw [fill_outer_odd a b h.1 h.2]
    unfold oddTileCell tileIndexAt
    cases (cts.filter (fun ct =>
        ct.tiles.contains ⟨(a - 1) / 2, (b - 1) / 2⟩)).getLast? <;> rfl
  · rw [if_neg h]
    unfold fillCityTiles
    rw [fill_outer_even cts a b h]

theorem mem_pass2Targets {W H : Nat} {t : Int × Int} :
    t ∈ pass2Targets W H ↔
      t.1 % 2 = 0 ∧ t.2 % 2 = 0 ∧ 2 ≤ t.1 ∧ t.1 ≤ 2 * (W : Int) - 2 ∧
      2 ≤ t.2 ∧ t.2 ≤ 2 * (H : Int) - 2 := by
  obtain ⟨t1, t2⟩ := t
  unfold pass2Targets
  simp only [List.mem_flatMap, List.mem_map, List.mem_range'_1, Prod.mk.injEq]
  constructor
  · rintro ⟨j, ⟨hj1, hj2⟩, i, ⟨hi1, hi2⟩, h1, h2⟩
    refine ⟨?_, ?_, ?_, ?_, ?_, ?_⟩ <;> omega
  · rintro ⟨h1, h2, h3, h4, h5, h6⟩
    exact ⟨(t2 / 2).toNat, ⟨by omega, by omega⟩,
      ⟨(t1 / 2).toNat, ⟨by omega, by omega⟩, by omega, by omega⟩⟩

theorem if_isSome_of_cond {P : Prop} [Decidable P] (hP : P) (X : Option Nat) :
    (if P ∧ X.isSome then X else none) = X := by
  cases X with
  | some v => rw [if_pos ⟨hP, rfl⟩]
  | none => rw [if_neg (fun hcon => Bool.noConfusion hcon.2)]

theorem if_not_cond {P : Prop} [Decidable P] (hP : ¬P) (X : Option Nat) :
    (if P ∧ X.isSome then X else none) = none := by
  rw [if_neg (fun hcon => hP hcon.1)]

theorem renderGrid_eq_spec (cts : List CityTiles) (W H : Nat) (a b : Int) :
    renderGrid cts W H a b = specRenderCell cts W H a b := by
  have htargets : ∀ t ∈ pass2Targets W H, t.1 % 2 = 0 ∧ t.2 % 2 = 0 := by
    intro t ht
    obtain ⟨h1, h2, _⟩ := mem_pass2Targets.1 ht
    exact ⟨h1, h2⟩
  unfold renderGrid
  by_cases hodd : a % 2 = 1 ∧ b % 2 = 1
  · rw [pass2_fold_oddodd a b hodd.1 hodd.2 _ _ htargets, fillCityTiles_char,
      if_pos hodd]
    unfold specRenderCell
    rw [if_pos hodd]
  · rw [pass2_fold_char (fillCityTiles cts) _ _ htargets
      (fun u v _ _ => rfl) a b hodd]
    have hB : fillCityTiles cts a b = none := by
      rw [fillCityTiles_char, if_neg hodd]
    rw [hB]
    have hpa : a % 2 = 0 ∨ a % 2 = 1 := by omega
    have hpb : b % 2 = 0 ∨ b % 2 = 1 := by omega
    rcases hpa with a0 | a1
    · rcases hpb with b0 | b1
      · -- corner cell: the writer is the interior even position (a, b) itself
        have hw : writerOf a b = (a, b) := by
          unfold writerOf
          rw [if_neg (by omega), if_neg (by omega)]
        have c1 : fillCityTiles cts (a - 1) (b - 1) = oddTileCell cts (a - 1) (b - 1) := by
          rw [fillCityTiles_char, if_pos ⟨by omega, by omega⟩]
        have c2 : fillCityTiles cts (a + 1) (b - 1) = oddTileCell cts (a + 1) (b - 1) := by
          rw [fillCityTiles_char, if_pos ⟨by omega, by omega⟩]
        have c3 : fillCityTiles cts (a - 1) (b + 1) = oddTileCell cts (a - 1) (b + 1) := by
          rw [fillCityTiles_char, if_pos ⟨by omega, by omega⟩]
        have c4 : fillCityTiles cts (a + 1) (b + 1) = oddTileCell cts (a + 1) (b + 1) := by
          rw [fillCityTiles_char, if_pos ⟨by omega, by omega⟩]
        have hval : specCondValue (fillCityTiles cts) a b =
            match oddTileCell cts (a - 1) (b - 1) with
            | some v => if oddTileCell cts (a + 1) (b - 1) = some v ∧
                  oddTileCell cts (a - 1) (b + 1) = some v ∧
                  oddTileCell cts (a + 1) (b + 1) = some v then some v else none
            | none => none := by
          unfold specCondValue
          rw [if_neg (by omega), if_neg (by omega), if_pos ⟨a0, b0⟩, c1, c2, c3, c4]
        unfold specRenderCell
        rw [if_neg hodd,
          if_neg (show ¬(a % 2 = 0 ∧ b % 2 = 1 ∧ 2 ≤ a ∧ a ≤ 2 * (W : Int) - 2 ∧
            2 ≤ b + 1 ∧ b + 1 ≤ 2 * (H : Int) - 2) from by omega),
          if_neg (show ¬(a % 2 = 1 ∧ b % 2 = 0 ∧ 2 ≤ a + 1 ∧
            a + 1 ≤ 2 * (W : Int) - 2 ∧ 2 ≤ b ∧ b ≤ 2 * (H : Int) - 2) from by omega)]
        by_cases hbnd : 2 ≤ a ∧ a ≤ 2 * (W : Int) - 2 ∧ 2 ≤ b ∧ b ≤ 2 * (H : Int) - 2
        · rw [if_pos (show a % 2 = 0 ∧ b % 2 = 0 ∧ 2 ≤ a ∧ a ≤ 2 * (W : Int) - 2 ∧
              2 ≤ b ∧ b ≤ 2 * (H : Int) - 2 from
              ⟨a0, b0, hbnd.1, hbnd.2.1, hbnd.2.2.1, hbnd.2.2.2⟩)]
          rw [hw, hval]
          exact if_isSome_of_cond (mem_pass2Targets.2
            ⟨a0, b0, hbnd.1, hbnd.2.1, hbnd.2.2.1, hbnd.2.2.2⟩) _
        · rw [if_neg (show ¬(a % 2 = 0 ∧ b % 2 = 0 ∧ 2 ≤ a ∧ a ≤ 2 * (W : Int) - 2 ∧
              2 ≤ b ∧ b ≤ 2 * (H : Int) - 2) from fun hcon =>
              hbnd ⟨hcon.2.2.1, hcon.2.2.2.1, hcon.2.2.2.2.1, hcon.2.2.2.2.2⟩)]
          rw [hw, hval]
          refine if_not_cond (fun hm => ?_) _
          obtain ⟨_, _, g3, g4, g5, g6⟩ := mem_pass2Targets.1 hm
          exact hbnd ⟨g3, g4, g5, g6⟩
      · -- horizontal border cell: the writer is (a, b + 1)
        have hw : writerOf a b = (a, b + 1) := by
          unfold writerOf
          rw [if_pos ⟨a0, b1⟩]
        have c1 : fillCityTiles cts (a - 1) b = oddTileCell cts (a - 1) b := by
          rw [fillCityTiles_char, if_pos ⟨by omega, by omega⟩]
        have c2 : fillCityTiles cts (a + 1) b = oddTileCell cts (a + 1) b := by
          rw [fillCityTiles_char, if_pos ⟨by omega, by omega⟩]
        have hval : specCondValue (fillCityTiles cts) a b =
            match oddTileCell cts (a - 1) b with
            | some v => if oddTileCell cts (a + 1) b = some v then some v else none
            | none => none := by
          unfold specCondValue
          rw [if_pos ⟨a0, b1⟩, c1, c2]
        unfold specRenderCell
        rw [if_neg hodd]
        by_cases hbnd : 2 ≤ a ∧ a ≤ 2 * (W : Int) - 2 ∧ 2 ≤ b + 1 ∧
            b + 1 ≤ 2 * (H : Int) - 2
        · rw [if_pos (show a % 2 = 0 ∧ b % 2 = 1 ∧ 2 ≤ a ∧ a ≤ 2 * (W : Int) - 2 ∧
              2 ≤ b + 1 ∧ b + 1 ≤ 2 * (H : Int) - 2 from
              ⟨a0, b1, hbnd.1, hbnd.2.1, hbnd.2.2.1, hbnd.2.2.2⟩)]
          rw [hw, hval]
          exact if_isSome_of_cond (mem_pass2Targets.2
            ⟨a0, by omega, hbnd.1, hbnd.2.1, hbnd.2.2.1, hbnd.2.2.2⟩) _
        · rw [if_neg (show ¬(a % 2 = 0 ∧ b % 2 = 1 ∧ 2 ≤ a ∧
              a ≤ 2 * (W : Int) - 2 ∧ 2 ≤ b + 1 ∧ b + 1 ≤ 2 * (H : Int) - 2) from
              fun hcon =>
              hbnd ⟨hcon.2.2.1, hcon.2.2.2.1, hcon.2.2.2.2.1, hcon.2.2.2.2.2⟩),
            if_neg (show ¬(a % 2 = 1 ∧ b % 2 = 0 ∧ 2 ≤ a + 1 ∧
              a + 1 ≤ 2 * (W : Int) - 2 ∧ 2 ≤ b ∧ b ≤ 2 * (H : Int) - 2) from
              by omega),
            if_neg (show ¬(a % 2 = 0 ∧ b % 2 = 0 ∧ 2 ≤ a ∧
              a ≤ 2 * (W : Int) - 2 ∧ 2 ≤ b ∧ b ≤ 2 * (H : Int) - 2) from by omega)]
          rw [hw, hval]
          refine if_not_cond (fun hm => ?_) _
          obtain ⟨_, _, g3, g4, g5, g6⟩ := mem_pass2Targets.1 hm
          exact hbnd ⟨g3, g4, g5, g6⟩
    · rcases hpb with b0 | b1
      · -- vertical border cell: the writer is (a + 1, b)
        have hw : writerOf a b = (a + 1, b) := by
          unfold writerOf
          rw [if_neg (by omega), if_pos ⟨a1, b0⟩]
        have c1 : fillCityTiles cts a (b - 1) = oddTileCell cts a (b - 1) := by
          rw [fillCityTiles_char, if_pos ⟨by omega, by omega⟩]
        have c2 : fillCityTiles cts a (b + 1) = oddTileCell cts a (b + 1) := by
          rw [fillCityTiles_char, if_pos ⟨by omega, by omega⟩]
        have hval : specCondValue (fillCityTiles cts) a b =
            match oddTileCell cts a (b - 1) with
            | some v => if oddTileCell cts a (b + 1) = some v then some v else none
            | none => none := by
          unfold specCondValue
          rw [if_neg (by omega), if_pos ⟨a1, b0⟩, c1, c2]
        unfold specRenderCell
        rw [if_neg hodd,
          if_neg (show ¬(a % 2 = 0 ∧ b % 2 = 1 ∧ 2 ≤ a ∧ a ≤ 2 * (W : Int) - 2 ∧
            2 ≤ b + 1 ∧ b + 1 ≤ 2 * (H : Int) - 2) from by omega)]
        by_cases hbnd : 2 ≤ a + 1 ∧ a + 1 ≤ 2 * (W : Int) - 2 ∧ 2 ≤ b ∧
            b ≤ 2 * (H : Int) - 2
        · rw [if_pos (show a % 2 = 1 ∧ b % 2 = 0 ∧ 2 ≤ a + 1 ∧
              a + 1 ≤ 2 * (W : Int) - 2 ∧ 2 ≤ b ∧ b ≤ 2 * (H : Int) - 2 from
              ⟨a1, b0, hbnd.1, hbnd.2.1, hbnd.2.2.1, hbnd.2.2.2⟩)]
          rw [hw, hval]
          exact if_isSome_of_cond (mem_pass2Targets.2
            ⟨by omega, b0, hbnd.1, hbnd.2.1, hbnd.2.2.1, hbnd.2.2.2⟩) _
        · rw [if_neg (show ¬(a % 2 = 1 ∧ b % 2 = 0 ∧ 2 ≤ a + 1 ∧
              a + 1 ≤ 2 * (W : Int) - 2 ∧ 2 ≤ b ∧ b ≤ 2 * (H : Int) - 2) from
              fun hcon =>
              hbnd ⟨hcon.2.2.1, hcon.2.2.2.1, hcon.2.2.2.2.1, hcon.2.2.2.2.2⟩),
            if_neg (show ¬(a % 2 = 0 ∧ b % 2 = 0 ∧ 2 ≤ a ∧
              a ≤ 2 * (W : Int) - 2 ∧ 2 ≤ b ∧ b ≤ 2 * (H : Int) - 2) from by omega)]
          rw [hw, hval]
          refine if_not_cond (fun hm => ?_) _
          obtain ⟨_, _, g3, g4, g5, g6⟩ := mem_pass2Targets.1 hm
          exact hbnd ⟨g3, g4, g5, g6⟩
      · exact absurd ⟨a1, b1⟩ hodd

/-- C9: render transform.  The render grid built by `renderMap` (size
`(2*gridWidth+1) x (2*gridHeight+1)`; cells outside that range are also
never assigned) agrees cell-by-cell with the spec's description: each
claimed tile `(x, y)` is assigned its location's index at `(2x+1, 2y+1)`;
for every interior even position `(ex, ey)`, the cell `(ex, ey-1)` is
assigned up-left's index exactly when up-left is assigned and equals
up-right, `(ex-1, ey)` exactly when up-left equals down-left, and
`(ex, ey)` itself exactly when all four diagonal neighbors are assigned
and equal; all other cells stay unassigned.  In particular a single
isolated tile produces no assigned border or corner cells, and an
interior 2×2 same-location block produces exactly one corner plus four
border cells (the assigned region is the 3×3 render block around its
center). -/
theorem claim_C9_render_transform :
    (∀ (cts : List CityTiles) (W H : Nat) (rx ry : Int),
      renderGrid cts W H rx ry = specRenderCell cts W H rx ry) ∧
    (∀ a ∈ List.range 11, ∀ b ∈ List.range 11, ¬(a = 5 ∧ b = 5) →
      renderGrid [⟨0, "A", [⟨2, 2⟩], getColor 0⟩] 5 5 (a : Int) (b : Int) = none) ∧
    (∀ a ∈ List.range 11, ∀ b ∈ List.range 11,
      renderGrid [⟨0, "A", [⟨1, 1⟩, ⟨2, 1⟩, ⟨1, 2⟩, ⟨2, 2⟩], getColor 0⟩] 5 5
          (a : Int) (b : Int) =
        if 3 ≤ a ∧ a ≤ 5 ∧ 3 ≤ b ∧ b ≤ 5 then some 0 else none) := by
  refine ⟨renderGrid_eq_spec, ?_, ?_⟩
  · have h : ∀ a ∈ List.range 11, ∀ b ∈ List.range 11, ¬(a = 5 ∧ b = 5) →
        specRenderCell [⟨0, "A", [⟨2, 2⟩], getColor 0⟩] 5 5 (a : Int) (b : Int) =
          none := by
      decide
    intro a ha b hb hne
    rw [renderGrid_eq_spec]
    exact h a ha b hb hne
  · have h : ∀ a ∈ List.range 11, ∀ b ∈ List.range 11,
        specRenderCell [⟨0, "A", [⟨1, 1⟩, ⟨2, 1⟩, ⟨1, 2⟩, ⟨2, 2⟩], getColor 0⟩] 5 5
            (a : Int) (b : Int) =
          if 3 ≤ a ∧ a ≤ 5 ∧ 3 ≤ b ∧ b ≤ 5 then some 0 else none := by
      decide
    intro a ha b hb
    rw [renderGrid_eq_spec]
    exact h a ha b hb

/-- Witness for C9: the origin cell of the isolated-tile scenario is
unassigned. -/
theorem claim_C9_witness :
    renderGrid [⟨0, "A", [⟨2, 2⟩], getColor 0⟩] 5 5 (0 : Nat) (0 : Nat) = none :=
  claim_C9_render_transform.2.1 0 (by decide) 0 (by decide) (by decide)

end PopMap
